import Mathlib

/-!
Verification of the CleanStream skip-resolution core: timestamp codec,
MCF (MovieContentFilter) parser/generator, and the skip generator/merger.
All definitions are shallow embeddings of the JavaScript source
(src/utils/mcf.js and the skip-generator module); strings are modelled as
lists of characters and JavaScript numbers as integers.  JS-specific
behaviours are preserved: object lookup misses become `none`, relational
comparison against `undefined` is false, `||`-defaulting treats the empty
string as falsy, and `Array.prototype.sort` is a stable sort.
-/

namespace CleanStream

/-- Strings are modelled as lists of characters. -/
abbrev Str := List Char

/-! ### Digits and number formatting (JS `String(n)`) -/

/-- The decimal digit character for a value below ten. -/
def digitChar (n : Nat) : Char :=
  match n with
  | 0 => '0'
  | 1 => '1'
  | 2 => '2'
  | 3 => '3'
  | 4 => '4'
  | 5 => '5'
  | 6 => '6'
  | 7 => '7'
  | 8 => '8'
  | _ => '9'

/-- Fuel-indexed decimal printer; called with fuel at least the number itself. -/
def natToDigitsAux : Nat → Nat → Str
  | 0, n => [digitChar n]
  | fuel + 1, n =>
    if n < 10 then [digitChar n] else natToDigitsAux fuel (n / 10) ++ [digitChar (n % 10)]

/-- Decimal representation of a natural number, as JS `String(n)`. -/
def natToDigits (n : Nat) : Str := natToDigitsAux n n

/-- Decimal representation of an integer, as JS `String(i)`. -/
def intToDigits (i : Int) : Str :=
  if i < 0 then '-' :: natToDigits i.natAbs else natToDigits i.toNat

/-- JS `String.prototype.padStart(k, c)`. -/
def padStart (k : Nat) (c : Char) (s : Str) : Str :=
  List.replicate (k - s.length) c ++ s

/-- Numeric value of a digit character. -/
def toDigit (c : Char) : Nat := c.toNat - 48

/-- Value of a digit string read left to right. -/
def digitsVal (s : Str) : Nat := s.foldl (fun a c => a * 10 + toDigit c) 0

/-! ### Timestamp codec (mcf.js `parseTimestamp` / `formatTimestamp`) -/

/-- One attempt of the regex `(\d{2}):(\d{2}):(\d{2})\.(\d{3})` at the head of
the string: if the first twelve characters have the digit/separator shape, the
millisecond value of the four captured groups, else `none`. -/
def parseTimestampMatchAt (cs : Str) : Option Nat :=
  match cs with
  | d1 :: d2 :: c1 :: d3 :: d4 :: c2 :: d5 :: d6 :: p :: m1 :: m2 :: m3 :: _ =>
    if d1.isDigit && d2.isDigit && c1 == ':' && d3.isDigit && d4.isDigit && c2 == ':'
        && d5.isDigit && d6.isDigit && p == '.' && m1.isDigit && m2.isDigit && m3.isDigit then
      some (((toDigit d1 * 10 + toDigit d2) * 3600 + (toDigit d3 * 10 + toDigit d4) * 60
        + (toDigit d5 * 10 + toDigit d6)) * 1000
        + (toDigit m1 * 100 + toDigit m2 * 10 + toDigit m3))
    else none
  | _ => none

/-- Leftmost match of the unanchored timestamp regex, as JS `String.match`. -/
def firstTimestampMatch : Str → Option Nat
  | [] => none
  | c :: rest =>
    match parseTimestampMatchAt (c :: rest) with
    | some v => some v
    | none => firstTimestampMatch rest

/-- mcf.js `parseTimestamp`: millisecond value of the first regex match,
`0` when the pattern matches nowhere. -/
def parseTimestamp (s : Str) : Nat := (firstTimestampMatch s).getD 0

/-- mcf.js `formatTimestamp`: `HH:MM:SS.mmm` with zero-padded fields
(hours uncapped). -/
def formatTimestamp (ms : Nat) : Str :=
  padStart 2 '0' (natToDigits (ms / 3600000))
    ++ ':' :: (padStart 2 '0' (natToDigits (ms % 3600000 / 60000))
    ++ ':' :: (padStart 2 '0' (natToDigits (ms % 60000 / 1000))
    ++ '.' :: padStart 3 '0' (natToDigits (ms % 1000))))

/-! ### String tokens used by the engine and the MCF format -/

def offTok : Str := ("off").toList
def lowTok : Str := ("low").toList
def mediumTok : Str := ("medium").toList
def highTok : Str := ("high").toList
def bothTok : Str := ("both").toList
def nudityTok : Str := ("nudity").toList
def sexTok : Str := ("sex").toList
def violenceTok : Str := ("violence").toList
def languageTok : Str := ("language").toList
def drugsTok : Str := ("drugs").toList
def fearTok : Str := ("fear").toList
def discriminationTok : Str := ("discrimination").toList
def dispensableTok : Str := ("dispensable").toList
def commercialTok : Str := ("commercial").toList

/-! ### Skip generator data model -/

/-- One raw content-flag record as stored for a title (the elements of
`filterData.segments` consumed by `generateSkips`).  Optional fields model
JS properties that may be absent (`undefined`). -/
structure Segment where
  id : Nat
  startMs : Int
  endMs : Int
  category : Str
  subcategory : Option Str
  severity : Option Str
  channel : Option Str
  comment : Option Str
deriving DecidableEq

/-- One resolved skip instruction as pushed by `generateSkips`. -/
structure Skip where
  id : Nat
  startMs : Int
  endMs : Int
  startTime : Str
  endTime : Str
  duration : Int
  category : Str
  subcategory : Option Str
  severity : Option Str
  channel : Str
  description : Str
deriving DecidableEq

/-- The `SEVERITY_LEVELS` object: property lookup yields `none` for any key
other than the four levels (a JS lookup miss is `undefined`). -/
def SEVERITY_LEVELS (v : Str) : Option Nat :=
  if v = offTok then some 0
  else if v = lowTok then some 1
  else if v = mediumTok then some 2
  else if v = highTok then some 3
  else none

/-- JS `>=` between two possibly-`undefined` numbers: any comparison with
`undefined` is false. -/
def jsGE : Option Nat → Option Nat → Bool
  | some a, some b => decide (b ≤ a)
  | some _, none => false
  | none, _ => false

/-- `SEVERITY_LEVELS[segment.severity]` where the severity property itself may
be absent. -/
def sevLevelOf : Option Str → Option Nat
  | some v => SEVERITY_LEVELS v
  | none => none

/-- The nine category keys preset to `'off'` in the default config object. -/
def defaultCategories : List Str :=
  [nudityTok, sexTok, violenceTok, languageTok, drugsTok, fearTok,
   discriminationTok, dispensableTok, commercialTok]

/-- The effective config after `{nudity:'off', ..., ...userConfig}`:
a user-supplied value wins, otherwise the nine known categories default to
`'off'`, and any other key is absent. -/
def configOf (uc : Str → Option Str) (cat : Str) : Option Str :=
  match uc cat with
  | some v => some v
  | none => if cat ∈ defaultCategories then some offTok else none

/-- The threshold filter of `generateSkips`: drop when the user threshold is
absent, empty (falsy) or `'off'`; otherwise keep when
`SEVERITY_LEVELS[severity] >= SEVERITY_LEVELS[userThreshold]` in JS
semantics. -/
def keepSegment (uc : Str → Option Str) (s : Segment) : Bool :=
  match configOf uc s.category with
  | none => false
  | some t =>
    if t = [] ∨ t = offTok then false
    else jsGE (sevLevelOf s.severity) (SEVERITY_LEVELS t)

/-- `formatTimeForDisplay`: `M:SS` built with `Math.floor` and JS `%`
(floor division, truncating remainder). -/
def formatTimeForDisplay (ms : Int) : Str :=
  intToDigits (Int.fdiv (Int.fdiv ms 1000) 60)
    ++ ':' :: padStart 2 '0' (intToDigits (Int.tmod (Int.fdiv ms 1000) 60))

/-- `generateDescription`: fixed label per known category, the category string
itself otherwise (the severity argument is unused in the source too). -/
def generateDescription (category : Str) (severity : Option Str) : Str :=
  let _ := severity
  if category = nudityTok then ("Nudity").toList
  else if category = sexTok then ("Sexual content").toList
  else if category = violenceTok then ("Violence").toList
  else if category = languageTok then ("Strong language").toList
  else if category = drugsTok then ("Drug/alcohol use").toList
  else if category = fearTok then ("Frightening scene").toList
  else if category = discriminationTok then ("Discriminatory content").toList
  else if category = dispensableTok then ("Skippable scene").toList
  else if category = commercialTok then ("Product placement").toList
  else category

/-- The skip record pushed for a surviving segment. -/
def toSkip (s : Segment) : Skip :=
  { id := s.id
    startMs := s.startMs
    endMs := s.endMs
    startTime := formatTimeForDisplay s.startMs
    endTime := formatTimeForDisplay s.endMs
    duration := s.endMs - s.startMs
    category := s.category
    subcategory := s.subcategory
    severity := s.severity
    channel :=
      match s.channel with
      | some c => if c = [] then bothTok else c
      | none => bothTok
    description :=
      match s.comment with
      | some c => if c = [] then generateDescription s.category s.severity else c
      | none => generateDescription s.category s.severity }

/-- The filtering loop of `generateSkips`. -/
def filteredSkips (uc : Str → Option Str) (segs : List Segment) : List Skip :=
  segs.filterMap (fun s => if keepSegment uc s then some (toSkip s) else none)

/-- Comparator `(a, b) => a.startMs - b.startMs` as an ordering relation. -/
def skipLE (a b : Skip) : Prop := a.startMs ≤ b.startMs

instance : DecidableRel skipLE := fun _ _ => Int.decLe _ _

instance : IsTotal Skip skipLE := ⟨fun a b => Int.le_total a.startMs b.startMs⟩

instance : IsTrans Skip skipLE := ⟨fun _ _ _ h1 h2 => le_trans h1 h2⟩

/-- Merging the current segment into the last kept interval: extend `endMs`
to the max, refresh `endTime` and `duration`, and append the new category to
the description when it differs. -/
def mergeInto (last current : Skip) : Skip :=
  { last with
    endMs := max last.endMs current.endMs
    endTime := formatTimeForDisplay (max last.endMs current.endMs)
    duration := max last.endMs current.endMs - last.startMs
    description :=
      if current.category = last.category then last.description
      else last.description ++ ',' :: ' ' :: current.category }

/-- The merge loop of `mergeOverlappingSkips`: `last` is the interval under
construction (the mutable tail of `merged`). -/
def mergeGo (last : Skip) : List Skip → List Skip
  | [] => [last]
  | c :: cs =>
    if c.startMs ≤ last.endMs + 500 then mergeGo (mergeInto last c) cs
    else last :: mergeGo c cs

/-- `mergeOverlappingSkips`: lists of length below two are returned as is,
otherwise the walk merges any segment starting within 500ms of the previous
kept interval's end. -/
def mergeOverlappingSkips (skips : List Skip) : List Skip :=
  match skips with
  | [] => []
  | s :: rest => mergeGo s rest

/-- `generateSkips` on the segment list fetched for the title: empty data
short-circuits to `[]`; otherwise filter by threshold, sort by `startMs`
(stable, as JS `sort`) and merge. -/
def generateSkips (segs : List Segment) (userConfig : Str → Option Str) : List Skip :=
  if segs.isEmpty then []
  else mergeOverlappingSkips (List.insertionSort skipLE (filteredSkips userConfig segs))

/-- Two intervals overlap when each starts before the other ends. -/
def overlaps (a b : Skip) : Prop := a.startMs < b.endMs ∧ b.startMs < a.endMs

/-- Separation invariant between consecutive merged intervals: the later one
starts more than the 500ms gap after the earlier one ends (and starts are
ordered). -/
def sepBy (a b : Skip) : Prop := a.endMs + 500 < b.startMs ∧ a.startMs ≤ b.startMs

instance : IsTrans Skip sepBy :=
  ⟨fun _ _ _ h1 h2 => ⟨lt_of_lt_of_le h1.1 h2.2, le_trans h1.2 h2.2⟩⟩

/-! ### Concrete inputs used by counterexamples and witnesses -/

/-- A raw segment whose `severity` property is absent. -/
def c2seg : Segment :=
  { id := 7, startMs := 0, endMs := 1000, category := violenceTok,
    subcategory := none, severity := none, channel := none, comment := none }

/-- A raw segment with severity `high`. -/
def c2segHigh : Segment :=
  { id := 8, startMs := 0, endMs := 1000, category := violenceTok,
    subcategory := none, severity := some highTok, channel := none, comment := none }

/-- A preference map enabling only `violence`, at the given threshold. -/
def violencePrefs (t : Str) : Str → Option Str :=
  fun x => if x = violenceTok then some t else none

/-- Skip interval `[0, 1000)` (violence). -/
def c6a : Skip :=
  { id := 1, startMs := 0, endMs := 1000, startTime := ("0:00").toList,
    endTime := ("0:01").toList, duration := 1000, category := violenceTok,
    subcategory := none, severity := some highTok, channel := bothTok,
    description := ("Violence").toList }

/-- Skip interval `[1400, 2000)` (violence). -/
def c6b : Skip :=
  { id := 2, startMs := 1400, endMs := 2000, startTime := ("0:01").toList,
    endTime := ("0:02").toList, duration := 600, category := violenceTok,
    subcategory := none, severity := some highTok, channel := bothTok,
    description := ("Violence").toList }

/-- Skip interval `[2000, 3000)` (violence). -/
def c6c : Skip :=
  { id := 3, startMs := 2000, endMs := 3000, startTime := ("0:02").toList,
    endTime := ("0:03").toList, duration := 1000, category := violenceTok,
    subcategory := none, severity := some highTok, channel := bothTok,
    description := ("Violence").toList }

/-- Two overlapping violence segments used to exercise the full pipeline. -/
def c1segs : List Segment :=
  [ { id := 1, startMs := 100000, endMs := 160000, category := violenceTok,
      subcategory := none, severity := some highTok, channel := none, comment := none },
    { id := 2, startMs := 100200, endMs := 161000, category := violenceTok,
      subcategory := none, severity := some mediumTok, channel := none, comment := none } ]

/-- A preference map carrying an unrecognized threshold string for `nudity`. -/
def c8uc : Str → Option Str :=
  fun x =>
    if x = nudityTok then some (("aggressive").toList)
    else if x = violenceTok then some mediumTok
    else none

/-- A nudity segment and a violence segment for the unknown-threshold claim. -/
def c8segs : List Segment :=
  [ { id := 1, startMs := 0, endMs := 2000, category := nudityTok,
      subcategory := none, severity := some highTok, channel := none, comment := none },
    { id := 2, startMs := 5000, endMs := 9000, category := violenceTok,
      subcategory := none, severity := some highTok, channel := none, comment := none } ]

/-! ### JS string primitives used by the MCF translator -/

/-- JS whitespace test (the characters relevant to `String.prototype.trim`). -/
def isWsChar (c : Char) : Bool :=
  c == ' ' || c == '\t' || c == '\n' || c == '\r' || c.toNat == 11 || c.toNat == 12

/-- JS `String.prototype.trim`. -/
def jsTrim (s : Str) : Str :=
  ((s.dropWhile isWsChar).reverse.dropWhile isWsChar).reverse

/-- JS `String.prototype.startsWith`. -/
def strStartsWith : Str → Str → Bool
  | _, [] => true
  | [], _ :: _ => false
  | c :: cs, p :: ps => c == p && strStartsWith cs ps

/-- JS `String.prototype.includes`. -/
def containsSub (pat : Str) : Str → Bool
  | [] => strStartsWith [] pat
  | c :: rest => strStartsWith (c :: rest) pat || containsSub pat rest

/-- Fuel-indexed worker for `String.prototype.split` with a non-empty
separator `c0 :: cs`; fuel is kept above the remaining length. -/
def jsSplitAux (c0 : Char) (cs : Str) : Nat → Str → Str → List Str
  | 0, s, acc => [acc.reverse ++ s]
  | _ + 1, [], acc => [acc.reverse]
  | fuel + 1, x :: rest, acc =>
    if strStartsWith (x :: rest) (c0 :: cs) then
      acc.reverse :: jsSplitAux c0 cs fuel (List.drop cs.length rest) []
    else jsSplitAux c0 cs fuel rest (x :: acc)

/-- JS `String.prototype.split` with a string separator. -/
def jsSplit (sep s : Str) : List Str :=
  match sep with
  | [] => [s]
  | c0 :: cs => jsSplitAux c0 cs (s.length + 1) s []

/-- Fuel-indexed worker for splitting on the regex `\r?\n`: `\r\n` and `\n`
separate lines, a lone `\r` is an ordinary character. -/
def splitLinesAux : Nat → Str → Str → List Str
  | 0, s, acc => [acc.reverse ++ s]
  | _ + 1, [], acc => [acc.reverse]
  | fuel + 1, c :: rest, acc =>
    if c = '\r' ∧ rest.head? = some '\n' then
      acc.reverse :: splitLinesAux fuel (rest.drop 1) []
    else if c = '\n' then acc.reverse :: splitLinesAux fuel rest []
    else splitLinesAux fuel rest (c :: acc)

/-- `content.split(/\r?\n/)`. -/
def splitLines (s : Str) : List Str := splitLinesAux (s.length + 1) s []

/-- Lines joined with a trailing `\n` each, as the generator builds its
output string. -/
def joinNL (ls : List Str) : Str := ls.foldr (fun l acc => l ++ '\n' :: acc) []

/-- Leading decimal digits of a string, `none` when there are none. -/
def digitsOfPrefix (r : Str) : Option Nat :=
  match r.takeWhile Char.isDigit with
  | [] => none
  | ds => some (digitsVal ds)

/-- JS `parseInt` in base 10: skip whitespace, optional sign, leading digits;
`none` models `NaN`. -/
def jsParseInt (s : Str) : Option Int :=
  match s.dropWhile isWsChar with
  | [] => none
  | c :: r =>
    if c == '-' then (digitsOfPrefix r).map (fun n => -(n : Int))
    else if c == '+' then (digitsOfPrefix r).map (fun n => (n : Int))
    else (digitsOfPrefix (c :: r)).map (fun n => (n : Int))

/-! ### MCF document model (mcf.js) -/

/-- One parsed filter entry `category[=severity[=channel]] [# comment]`. -/
structure MCFFilter where
  category : Str
  parentCategory : Str
  severity : Str
  channel : Str
  comment : Option Str
deriving DecidableEq

/-- One cue: a timestamp pair and its filter entries. -/
structure MCFCue where
  startTime : Nat
  endTime : Nat
  filters : List MCFFilter
deriving DecidableEq

/-- The recognized metadata keys.  A numeric field is
`Option (Option Int)`: the outer `Option` models an absent property, the
inner one the `NaN` a failed `parseInt` stores. -/
structure MCFMetadata where
  title : Option Str := none
  year : Option (Option Int) := none
  type : Option Str := none
  season : Option (Option Int) := none
  episode : Option (Option Int) := none
  imdb : Option Str := none
  source : Option Str := none
  release : Option Str := none
deriving DecidableEq

/-- The `START`/`END` markers (the source's `markers.end` field is named
`endPos` here because `end` is reserved in Lean). -/
structure MCFMarkers where
  start : Option Nat := none
  endPos : Option Nat := none
deriving DecidableEq

/-- The structured document produced by `parseMCF`. -/
structure MCFDoc where
  version : Str
  metadata : MCFMetadata := {}
  markers : MCFMarkers := {}
  segments : List MCFCue := []
deriving DecidableEq

deriving instance DecidableEq for Except

/-! ### Fixed tokens of the MCF grammar -/

def headerTok : Str := ("WEBVTT MovieContentFilter").toList
def headerLine : Str := ("WEBVTT MovieContentFilter 1.1.0").toList
def noteTok : Str := ("NOTE").toList
def arrowSep : Str := (" --> ").toList
def hashSep : Str := (" # ").toList
def eqSep : Str := [ '=' ]
def spaceSep : Str := [ ' ' ]
def defaultVersion : Str := ("1.1.0").toList
def errMsg : Str := ("Invalid MCF format: missing header").toList
def kwTITLE : Str := ("TITLE ").toList
def kwYEAR : Str := ("YEAR ").toList
def kwTYPE : Str := ("TYPE ").toList
def kwSEASON : Str := ("SEASON ").toList
def kwEPISODE : Str := ("EPISODE ").toList
def kwIMDB : Str := ("IMDB ").toList
def kwSOURCE : Str := ("SOURCE ").toList
def kwRELEASE : Str := ("RELEASE ").toList
def kwSTART : Str := ("START ").toList
def kwEND : Str := ("END ").toList
def videoTok : Str := ("video").toList
def audioTok : Str := ("audio").toList

/-- The `CATEGORIES` mapping from fine-grained flags to parent categories. -/
def CATEGORIES : List (Str × Str) :=
  [ (nudityTok, nudityTok),
    (("bareButtocks").toList, nudityTok),
    (("exposedGenitalia").toList, nudityTok),
    (("fullNudity").toList, nudityTok),
    (("toplessness").toList, nudityTok),
    (sexTok, sexTok),
    (("adultery").toList, sexTok),
    (("analSex").toList, sexTok),
    (("coitus").toList, sexTok),
    (("kissing").toList, sexTok),
    (("masturbation").toList, sexTok),
    (("objectification").toList, sexTok),
    (("oralSex").toList, sexTok),
    (("premaritalSex").toList, sexTok),
    (("promiscuity").toList, sexTok),
    (("prostitution").toList, sexTok),
    (violenceTok, violenceTok),
    (("choking").toList, violenceTok),
    (("crueltyToAnimals").toList, violenceTok),
    (("culturalViolence").toList, violenceTok),
    (("desecration").toList, violenceTok),
    (("emotionalViolence").toList, violenceTok),
    (("kicking").toList, violenceTok),
    (("massacre").toList, violenceTok),
    (("murder").toList, violenceTok),
    (("punching").toList, violenceTok),
    (("rape").toList, violenceTok),
    (("slapping").toList, violenceTok),
    (("slavery").toList, violenceTok),
    (("stabbing").toList, violenceTok),
    (("torture").toList, violenceTok),
    (("warfare").toList, violenceTok),
    (("weapons").toList, violenceTok),
    (languageTok, languageTok),
    (("blasphemy").toList, languageTok),
    (("nameCalling").toList, languageTok),
    (("sexualDialogue").toList, languageTok),
    (("swearing").toList, languageTok),
    (("vulgarity").toList, languageTok),
    (drugsTok, drugsTok),
    (("alcohol").toList, drugsTok),
    (("antipsychotics").toList, drugsTok),
    (("cigarettes").toList, drugsTok),
    (("depressants").toList, drugsTok),
    (("gambling").toList, drugsTok),
    (("hallucinogens").toList, drugsTok),
    (("stimulants").toList, drugsTok),
    (fearTok, fearTok),
    (("accident").toList, fearTok),
    (("acrophobia").toList, fearTok),
    (("aliens").toList, fearTok),
    (("arachnophobia").toList, fearTok),
    (("claustrophobia").toList, fearTok),
    (("death").toList, fearTok),
    (("explosion").toList, fearTok),
    (("fire").toList, fearTok),
    (("ghosts").toList, fearTok),
    (("vampires").toList, fearTok),
    (discriminationTok, discriminationTok),
    (("racism").toList, discriminationTok),
    (("sexism").toList, discriminationTok),
    (("homophobia").toList, discriminationTok),
    (dispensableTok, dispensableTok),
    (("tedious").toList, dispensableTok),
    (commercialTok, commercialTok),
    (("productPlacement").toList, commercialTok) ]

/-- `CATEGORIES[key]` as a JS property lookup. -/
def lookupCat (k : Str) : Option Str :=
  (CATEGORIES.find? (fun p => decide (p.1 = k))).map (fun p => p.2)

/-! ### parseMCF -/

/-- `parseFilterLine`: split off a ` # ` comment, split the rest on `=`;
lines with fewer than two `=`-parts are rejected. -/
def parseFilterLine (line : Str) : Option MCFFilter :=
  let parts0 := jsSplit hashSep line
  let commentPart := (parts0.drop 1).head?
  let parts := jsSplit eqSep (parts0.headD [])
  if parts.length < 2 then none
  else
    some
      { category := parts.headD []
        parentCategory := (lookupCat (parts.headD [])).getD (parts.headD [])
        severity := (parts.drop 1).headD []
        channel :=
          match (parts.drop 2).head? with
          | some ch => if ch = [] then bothTok else ch
          | none => bothTok
        comment :=
          match commentPart with
          | some cm => if cm = [] then none else some cm
          | none => none }

/-- The mutable state of the parse loop. -/
structure PState where
  inNote : Bool
  cue : Option MCFCue
  doc : MCFDoc

/-- One iteration of the `while` loop of `parseMCF` (every branch advances
`i` by exactly one, so the loop is a left fold over the lines). -/
def step (st : PState) (raw : Str) : PState :=
  let line := jsTrim raw
  if line = noteTok then { st with inNote := true }
  else if st.inNote then
    if line = [] then { st with inNote := false }
    else if strStartsWith line kwTITLE then
      { st with doc := { st.doc with metadata :=
        { st.doc.metadata with title := some (line.drop 6) } } }
    else if strStartsWith line kwYEAR then
      { st with doc := { st.doc with metadata :=
        { st.doc.metadata with year := some (jsParseInt (line.drop 5)) } } }
    else if strStartsWith line kwTYPE then
      { st with doc := { st.doc with metadata :=
        { st.doc.metadata with type := some (line.drop 5) } } }
    else if strStartsWith line kwSEASON then
      { st with doc := { st.doc with metadata :=
        { st.doc.metadata with season := some (jsParseInt (line.drop 7)) } } }
    else if strStartsWith line kwEPISODE then
      { st with doc := { st.doc with metadata :=
        { st.doc.metadata with episode := some (jsParseInt (line.drop 8)) } } }
    else if strStartsWith line kwIMDB then
      { st with doc := { st.doc with metadata :=
        { st.doc.metadata with imdb := some (line.drop 5) } } }
    else if strStartsWith line kwSOURCE then
      { st with doc := { st.doc with metadata :=
        { st.doc.metadata with source := some (line.drop 7) } } }
    else if strStartsWith line kwRELEASE then
      { st with doc := { st.doc with metadata :=
        { st.doc.metadata with release := some (line.drop 8) } } }
    else if strStartsWith line kwSTART then
      { st with doc := { st.doc with markers :=
        { st.doc.markers with start := some (parseTimestamp (line.drop 6)) } } }
    else if strStartsWith line kwEND then
      { st with doc := { st.doc with markers :=
        { st.doc.markers with endPos := some (parseTimestamp (line.drop 4)) } } }
    else st
  else if containsSub arrowSep line then
    { st with cue := some ⟨parseTimestamp ((jsSplit arrowSep line).headD []),
        parseTimestamp (((jsSplit arrowSep line).drop 1).headD []), []⟩ }
  else
    match st.cue with
    | none => st
    | some cue =>
      if line = [] then
        { st with
          cue := none
          doc :=
            if cue.filters = [] then st.doc
            else { st.doc with segments := st.doc.segments ++ [cue] } }
      else
        match parseFilterLine line with
        | some f => { st with cue := some { cue with filters := cue.filters ++ [f] } }
        | none => st

/-- `lines[0].split(' ')[2] || '1.1.0'`. -/
def versionOf (first : Str) : Str :=
  match (jsSplit spaceSep first).drop 2 with
  | [] => defaultVersion
  | v :: _ => if v = [] then defaultVersion else v

/-- Parse state before the loop (`i = 2` skips the header and one line). -/
def initPState (first : Str) : PState :=
  { inNote := false, cue := none,
    doc := { version := versionOf first } }

/-- After the loop: flush a dangling cue that has at least one filter. -/
def finishParse (st : PState) : MCFDoc :=
  match st.cue with
  | some cue =>
    if cue.filters = [] then st.doc
    else { st.doc with segments := st.doc.segments ++ [cue] }
  | none => st.doc

/-- `parseMCF`: throw (`Except.error`) exactly when the first line does not
start with the header sentinel, otherwise run the line loop. -/
def parseMCF (content : Str) : Except Str MCFDoc :=
  let lines := splitLines content
  if strStartsWith (lines.headD []) headerTok then
    Except.ok (finishParse (List.foldl step (initPState (lines.headD [])) (lines.drop 2)))
  else Except.error errMsg

/-! ### generateMCF -/

/-- A metadata line is emitted only when the value is truthy (absent and
empty-string values are skipped). -/
def optStrLine (o : Option Str) (f : Str → Str) : List Str :=
  match o with
  | some t => if t = [] then [] else [f t]
  | none => []

/-- A numeric metadata line is emitted only when the value is truthy
(absent, `NaN` and `0` are skipped). -/
def optNumLine (o : Option (Option Int)) (f : Int → Str) : List Str :=
  match o with
  | some (some n) => if n = 0 then [] else [f n]
  | some none => []
  | none => []

/-- A marker line is emitted whenever the value is not `null` (`0` counts). -/
def optNatLine (o : Option Nat) (f : Nat → Str) : List Str :=
  match o with
  | some v => [f v]
  | none => []

/-- `Object.keys(data.metadata).length > 0`. -/
def metaPresent (m : MCFMetadata) : Bool :=
  m.title.isSome || m.year.isSome || m.type.isSome || m.season.isSome
    || m.episode.isSome || m.imdb.isSome || m.source.isSome || m.release.isSome

/-- The generated filter line: `category=severity`, `=channel` only when the
channel is truthy and not `both`, ` # comment` only when truthy. -/
def filterLineOf (f : MCFFilter) : Str :=
  f.category ++ '=' :: f.severity
    ++ (if f.channel ≠ [] ∧ f.channel ≠ bothTok then '=' :: f.channel else [])
    ++ (match f.comment with
        | some cm => if cm = [] then [] else hashSep ++ cm
        | none => [])

/-- The generated metadata block body (note the source never emits a
`SOURCE` line, though the parser reads one). -/
def metaLines (m : MCFMetadata) : List Str :=
  optStrLine m.title (fun t => kwTITLE ++ t)
    ++ optNumLine m.year (fun n => kwYEAR ++ intToDigits n)
    ++ optStrLine m.type (fun t => kwTYPE ++ t)
    ++ optNumLine m.season (fun n => kwSEASON ++ intToDigits n)
    ++ optNumLine m.episode (fun n => kwEPISODE ++ intToDigits n)
    ++ optStrLine m.imdb (fun t => kwIMDB ++ t)
    ++ optStrLine m.release (fun t => kwRELEASE ++ t)

/-- The generated marker block body. -/
def markerLines (mk : MCFMarkers) : List Str :=
  optNatLine mk.start (fun v => kwSTART ++ formatTimestamp v)
    ++ optNatLine mk.endPos (fun v => kwEND ++ formatTimestamp v)

/-- The generated block of one segment: timestamp line, one line per filter,
then a blank line. -/
def cueLines (seg : MCFCue) : List Str :=
  (formatTimestamp seg.startTime ++ arrowSep ++ formatTimestamp seg.endTime)
    :: seg.filters.map filterLineOf ++ [[]]

/-- `generateMCF` as its list of emitted lines (every line of the built
string is `\n`-terminated). -/
def generateMCFLines (d : MCFDoc) : List Str :=
  [headerLine, []]
    ++ (if metaPresent d.metadata then noteTok :: (metaLines d.metadata ++ [[]]) else [])
    ++ noteTok :: (markerLines d.markers ++ [[]])
    ++ d.segments.foldr (fun seg acc => cueLines seg ++ acc) []

/-- `generateMCF`. -/
def generateMCF (d : MCFDoc) : Str := joinNL (generateMCFLines d)

/-! ### The supported-value predicate for the round-trip claim -/

/-- No newline characters (a value that would break the line structure). -/
def noCR (t : Str) : Bool :=
  t.all (fun c => !(c == '\n') && !(c == '\r'))

/-- A metadata/comment value: non-empty, no newlines, and its last character
is not whitespace (so trimming the emitted line leaves it intact). -/
def cleanRight (t : Str) : Bool :=
  match t.reverse with
  | d :: _ => !isWsChar d && noCR t
  | [] => false

/-- A category token: non-empty, and free of whitespace and `=`. -/
def bareToken (t : Str) : Bool :=
  decide (t ≠ []) && t.all (fun c => !isWsChar c && !(c == '='))

/-- Supported values for one filter entry: a bare category whose
`parentCategory` agrees with the taxonomy, a recognized severity and
channel, and a comment that cannot be mistaken for other syntax. -/
def filterSupported (f : MCFFilter) : Bool :=
  bareToken f.category
    && (decide (f.severity = lowTok) || decide (f.severity = mediumTok)
        || decide (f.severity = highTok))
    && (decide (f.channel = bothTok) || decide (f.channel = videoTok)
        || decide (f.channel = audioTok))
    && decide (f.parentCategory = (lookupCat f.category).getD f.category)
    && (match f.comment with
        | some cm => cleanRight cm && !containsSub hashSep cm
        | none => true)
    && !containsSub arrowSep (filterLineOf f)

/-- Supported values for one segment: in-range timestamps and at least one
supported filter entry. -/
def cueSupported (seg : MCFCue) : Bool :=
  decide (seg.startTime < 360000000) && decide (seg.endTime < 360000000)
    && decide (seg.filters ≠ []) && seg.filters.all filterSupported

def optStrSupported (o : Option Str) : Bool :=
  match o with
  | some t => cleanRight t
  | none => true

def optNumSupported (o : Option (Option Int)) : Bool :=
  match o with
  | some (some n) => decide (0 < n)
  | some none => false
  | none => true

/-- Supported documents for the amended round-trip law: version `1.1.0`
(the generator hard-codes it), no `source` metadata (the generator never
emits it), positive numeric fields, clean string fields, in-range markers
and supported segments. -/
def docSupported (d : MCFDoc) : Bool :=
  decide (d.version = defaultVersion)
    && optStrSupported d.metadata.title && optNumSupported d.metadata.year
    && optStrSupported d.metadata.type && optNumSupported d.metadata.season
    && optNumSupported d.metadata.episode && optStrSupported d.metadata.imdb
    && decide (d.metadata.source = none) && optStrSupported d.metadata.release
    && (match d.markers.start with
        | some v => decide (v < 360000000)
        | none => true)
    && (match d.markers.endPos with
        | some v => decide (v < 360000000)
        | none => true)
    && d.segments.all cueSupported

/-- The `=channel` piece of a generated filter line, by emitted channel. -/
def chanPartOf : Option Str → Str
  | some ch => '=' :: ch
  | none => []

/-- The ` # comment` piece of a generated filter line. -/
def comPartOf : Option Str → Str
  | some cm => hashSep ++ cm
  | none => []

/-- The channel the parser reconstructs from an optional third `=`-part. -/
def chanResOf : Option Str → Str
  | some ch => ch
  | none => bothTok

/-! ### Concrete MCF inputs for counterexamples and witnesses -/

/-- A document with an unsupported version string and a `source` metadata
field, exercising what the generator drops. -/
def c4bad : MCFDoc :=
  { version := ("1.0.0").toList,
    metadata := { source := some (("communityDb").toList) } }

/-- A representative fully-supported document. -/
def c4good : MCFDoc :=
  { version := defaultVersion,
    metadata :=
      { title := some (("The Matrix").toList)
        year := some (some 1999)
        type := some (("movie").toList)
        imdb := some (("tt0133093").toList) },
    markers := { start := some 0, endPos := some 8160000 },
    segments :=
      [ { startTime := 100000, endTime := 160000,
          filters :=
            [ { category := ("punching").toList, parentCategory := violenceTok,
                severity := highTok, channel := bothTok, comment := none },
              { category := sexTok, parentCategory := sexTok, severity := lowTok,
                channel := videoTok, comment := some (("brief scene").toList) } ] },
        { startTime := 200000, endTime := 220000,
          filters :=
            [ { category := ("swearing").toList, parentCategory := languageTok,
                severity := mediumTok, channel := audioTok, comment := none } ] } ] }

/-- Input whose first cue is followed by a second timestamp line with no
intervening blank line. -/
def c10lines : List Str :=
  [ headerLine, [],
    ("00:00:01.000 --> 00:00:02.000").toList,
    ("violence=high").toList,
    ("00:00:03.000 --> 00:00:04.000").toList,
    ("sex=low").toList,
    [] ]

def c10input : Str := joinNL c10lines

/-! ## Theorems -/

/-! ### Digit-printer lemmas -/

theorem isDigit_digitChar (n : Nat) : (digitChar n).isDigit = true := by
  unfold digitChar
  split <;> decide

theorem toDigit_digitChar {n : Nat} (h : n < 10) : toDigit (digitChar n) = n := by
  interval_cases n <;> decide

theorem natToDigitsAux_lt10 (fuel : Nat) {n : Nat} (h : n < 10) :
    natToDigitsAux fuel n = [digitChar n] := by
  cases fuel with
  | zero => rfl
  | succ f => simp [natToDigitsAux, h]

theorem natToDigits_lt10 {n : Nat} (h : n < 10) : natToDigits n = [digitChar n] :=
  natToDigitsAux_lt10 n h

theorem natToDigits_two {n : Nat} (h1 : 10 ≤ n) (h2 : n < 100) :
    natToDigits n = [digitChar (n / 10), digitChar (n % 10)] := by
  obtain ⟨m, rfl⟩ : ∃ m, n = m + 1 := ⟨n - 1, by omega⟩
  show natToDigitsAux (m + 1) (m + 1) = _
  rw [natToDigitsAux, if_neg (by omega), natToDigitsAux_lt10 m (by omega)]
  rfl

theorem natToDigits_three {n : Nat} (h1 : 100 ≤ n) (h2 : n < 1000) :
    natToDigits n = [digitChar (n / 100), digitChar (n / 10 % 10), digitChar (n % 10)] := by
  obtain ⟨m, rfl⟩ : ∃ m, n = m + 1 := ⟨n - 1, by omega⟩
  show natToDigitsAux (m + 1) (m + 1) = _
  rw [natToDigitsAux, if_neg (by omega)]
  obtain ⟨k, hk⟩ : ∃ k, m = k + 1 := ⟨m - 1, by omega⟩
  subst hk
  rw [show natToDigitsAux (k + 1) ((k + 1 + 1) / 10) =
      if (k + 1 + 1) / 10 < 10 then [digitChar ((k + 1 + 1) / 10)]
      else natToDigitsAux k ((k + 1 + 1) / 10 / 10) ++ [digitChar ((k + 1 + 1) / 10 % 10)]
    from rfl, if_neg (by omega), natToDigitsAux_lt10 k (by omega)]
  have : (k + 1 + 1) / 10 / 10 = (k + 1 + 1) / 100 := by
    rw [Nat.div_div_eq_div_mul]
  rw [this]
  rfl

theorem padStart_two_digits {n : Nat} (h : n < 100) :
    padStart 2 '0' (natToDigits n) = [digitChar (n / 10), digitChar (n % 10)] := by
  by_cases h1 : n < 10
  · rw [natToDigits_lt10 h1]
    have hz : n / 10 = 0 := by omega
    have hm : n % 10 = n := by omega
    rw [hz, hm]
    rfl
  · rw [natToDigits_two (by omega) h]
    rfl

theorem padStart_three_digits {n : Nat} (h : n < 1000) :
    padStart 3 '0' (natToDigits n) =
      [digitChar (n / 100), digitChar (n / 10 % 10), digitChar (n % 10)] := by
  by_cases h1 : n < 10
  · rw [natToDigits_lt10 h1]
    have e1 : n / 100 = 0 := by omega
    have e2 : n / 10 % 10 = 0 := by omega
    have e3 : n % 10 = n := by omega
    rw [e1, e2, e3]
    rfl
  · by_cases h2 : n < 100
    · rw [natToDigits_two (by omega) h2]
      have e1 : n / 100 = 0 := by omega
      have e2 : n / 10 % 10 = n / 10 := by omega
      rw [e1, e2]
      rfl
    · rw [natToDigits_three (by omega) h]
      rfl

/-! ### Bounded round trip of the timestamp codec -/

theorem parseTimestampMatchAt_format {m : Nat} (h : m < 360000000) :
    parseTimestampMatchAt (formatTimestamp m) = some m := by
  have hh : m / 3600000 < 100 := by omega
  have hmm : m % 3600000 / 60000 < 100 := by omega
  have hss : m % 60000 / 1000 < 100 := by omega
  have hms : m % 1000 < 1000 := by omega
  unfold formatTimestamp
  rw [padStart_two_digits hh, padStart_two_digits hmm, padStart_two_digits hss,
    padStart_three_digits hms]
  show parseTimestampMatchAt
      (digitChar (m / 3600000 / 10) :: digitChar (m / 3600000 % 10) :: ':'
        :: digitChar (m % 3600000 / 60000 / 10) :: digitChar (m % 3600000 / 60000 % 10) :: ':'
        :: digitChar (m % 60000 / 1000 / 10) :: digitChar (m % 60000 / 1000 % 10) :: '.'
        :: digitChar (m % 1000 / 100) :: digitChar (m % 1000 / 10 % 10)
        :: digitChar (m % 1000 % 10) :: []) = some m
  simp only [parseTimestampMatchAt]
  rw [if_pos (by simp [isDigit_digitChar])]
  rw [toDigit_digitChar (by omega), toDigit_digitChar (by omega),
    toDigit_digitChar (by omega), toDigit_digitChar (by omega),
    toDigit_digitChar (by omega), toDigit_digitChar (by omega),
    toDigit_digitChar (by omega), toDigit_digitChar (by omega),
    toDigit_digitChar (by omega)]
  congr 1
  omega

theorem parseTimestamp_formatTimestamp {m : Nat} (h : m < 360000000) :
    parseTimestamp (formatTimestamp m) = m := by
  have hmatch := parseTimestampMatchAt_format h
  have hne : formatTimestamp m ≠ [] := by
    intro heq
    rw [heq] at hmatch
    exact Option.noConfusion hmatch
  unfold parseTimestamp
  cases hfmt : formatTimestamp m with
  | nil => exact absurd hfmt hne
  | cons c rest =>
    rw [hfmt] at hmatch
    unfold firstTimestampMatch
    rw [hmatch]
    rfl

theorem firstTimestampMatch_eq_none :
    ∀ s : Str, (∀ i, i < s.length → parseTimestampMatchAt (List.drop i s) = none) →
    firstTimestampMatch s = none := by
  intro s
  induction s with
  | nil => intro _; rfl
  | cons c rest ih =>
    intro h
    have h0 := h 0 (by simp)
    simp only [List.drop_zero] at h0
    unfold firstTimestampMatch
    rw [h0]
    exact ih fun i hi => by
      have := h (i + 1) (by simpa using Nat.succ_lt_succ hi)
      simpa using this

/-! ### Claim C3 (timestamp round trip for all non-negative integers) -/

/-- Claim C3, counterexample: at `x = 360000000` (100 hours) the formatted
text is `100:00:00.000`; the unanchored pattern matches the substring
`00:00:00.000`, so the round trip returns `0`, not `x`. -/
theorem claim_C3_counterexample :
    parseTimestamp (formatTimestamp 360000000) = 0 ∧ (0 : Nat) ≠ 360000000 := by
  decide

/-- Claim C3, amended: the codec round-trips for every non-negative integer
strictly below 360000000 (hours below 100); above that bound the two-digit
hour field cannot represent the value and the round trip fails. -/
theorem claim_C3 : ∀ x : Nat, x < 360000000 → parseTimestamp (formatTimestamp x) = x :=
  fun _ h => parseTimestamp_formatTimestamp h

theorem claim_C3_witness : parseTimestamp (formatTimestamp 45296789) = 45296789 :=
  claim_C3 45296789 (by decide)

/-! ### Claim C7 (bounded timestamp round trip) -/

/-- Claim C7: for every integer `m` in `[0, 359999999]`,
`parseTimestamp(formatTimestamp(m)) = m`. -/
theorem claim_C7 : ∀ m : Nat, m ≤ 359999999 → parseTimestamp (formatTimestamp m) = m :=
  fun _ h => parseTimestamp_formatTimestamp (by omega)

theorem claim_C7_witness : parseTimestamp (formatTimestamp 3723004) = 3723004 :=
  claim_C7 3723004 (by decide)

/-! ### Claim C9 (unanchored pattern match in parseTimestamp) -/

/-- Claim C9, counterexample: on `100:00:00.000` a matching 2-2-2-3-digit
substring occurs (at offset 1, encoding 0 ms), yet `parseTimestamp` returns
`0` — so a return of `0` does not imply that no matching substring occurs. -/
theorem claim_C9_counterexample :
    parseTimestamp (("100:00:00.000").toList) = 0
    ∧ parseTimestampMatchAt (List.drop 1 (("100:00:00.000").toList)) = some 0 := by
  decide

/-- Claim C9, amended: the match is unanchored — `parseTimestamp` returns the
millisecond value of the leftmost matching 2-2-2-3-digit substring when one
exists (so embedded timestamps parse, e.g. inside surrounding text), and
returns `0` when no such substring occurs anywhere; but a return of `0` is
ambiguous, since the leftmost matching substring may itself encode 0 ms. -/
theorem claim_C9 :
    (∀ s : Str, (∀ i, i < s.length → parseTimestampMatchAt (List.drop i s) = none) →
      parseTimestamp s = 0)
    ∧ (∀ (c : Char) (rest : Str) (v : Nat),
        parseTimestampMatchAt (c :: rest) = some v → parseTimestamp (c :: rest) = v)
    ∧ (∀ (c : Char) (rest : Str),
        parseTimestampMatchAt (c :: rest) = none →
        parseTimestamp (c :: rest) = parseTimestamp rest)
    ∧ parseTimestamp (("xx01:02:03.004yy").toList) = 3723004
    ∧ parseTimestamp (("100:00:00.000").toList) = 0 := by
  refine ⟨?_, ?_, ?_, by decide, by decide⟩
  · intro s h
    unfold parseTimestamp
    rw [firstTimestampMatch_eq_none s h]
    rfl
  · intro c rest v h
    unfold parseTimestamp firstTimestampMatch
    rw [h]
    rfl
  · intro c rest h
    unfold parseTimestamp
    simp only [firstTimestampMatch, h]

theorem claim_C9_witness :
    parseTimestamp (("abc").toList) = 0
    ∧ parseTimestamp (("xx01:02:03.004yy").toList) = 3723004 :=
  ⟨claim_C9.1 (("abc").toList) (by decide), claim_C9.2.2.2.1⟩

/-! ### Merge-loop invariants -/

theorem mergeGo_spec :
    ∀ (rest : List Skip) (last : Skip), List.Pairwise skipLE (last :: rest) →
      List.Chain' sepBy (mergeGo last rest)
      ∧ (mergeGo last rest).head?.map (fun s => s.startMs) = some last.startMs
      ∧ ((last.startMs < last.endMs ∧ ∀ c ∈ rest, c.startMs < c.endMs) →
          ∀ o ∈ mergeGo last rest, o.startMs < o.endMs)
      ∧ (∀ o ∈ mergeGo last rest,
          o.severity = last.severity ∨ ∃ c ∈ rest, o.severity = c.severity) := by
  intro rest
  induction rest with
  | nil =>
    intro last _
    refine ⟨List.chain'_singleton last, rfl, ?_, ?_⟩
    · intro h o ho
      simp only [mergeGo, List.mem_singleton] at ho
      exact ho ▸ h.1
    · intro o ho
      simp only [mergeGo, List.mem_singleton] at ho
      exact Or.inl (ho ▸ rfl)
  | cons c cs ih =>
    intro last hpw
    have hlast_c : skipLE last c := (List.pairwise_cons.mp hpw).1 c (List.mem_cons_self c cs)
    have hpw_tail : List.Pairwise skipLE (c :: cs) := (List.pairwise_cons.mp hpw).2
    by_cases hmerge : c.startMs ≤ last.endMs + 500
    · have hstep : mergeGo last (c :: cs) = mergeGo (mergeInto last c) cs := by
        simp [mergeGo, hmerge]
      have hpw' : List.Pairwise skipLE (mergeInto last c :: cs) := by
        refine List.pairwise_cons.mpr ⟨?_, (List.pairwise_cons.mp hpw_tail).2⟩
        intro x hx
        have hcx : skipLE c x := (List.pairwise_cons.mp hpw_tail).1 x hx
        exact le_trans hlast_c hcx
      obtain ⟨ch, hd, eg, sv⟩ := ih (mergeInto last c) hpw'
      rw [hstep]
      refine ⟨ch, ?_, ?_, ?_⟩
      · rw [hd]; rfl
      · intro hpre o ho
        refine eg ⟨?_, fun x hx => hpre.2 x (List.mem_cons_of_mem c hx)⟩ o ho
        calc (mergeInto last c).startMs = last.startMs := rfl
          _ < last.endMs := hpre.1
          _ ≤ max last.endMs c.endMs := le_max_left _ _
      · intro o ho
        rcases sv o ho with h1 | ⟨x, hx, hxe⟩
        · exact Or.inl h1
        · exact Or.inr ⟨x, List.mem_cons_of_mem c hx, hxe⟩
    · have hstep : mergeGo last (c :: cs) = last :: mergeGo c cs := by
        simp [mergeGo, hmerge]
      obtain ⟨ch, hd, eg, sv⟩ := ih c hpw_tail
      rw [hstep]
      refine ⟨?_, rfl, ?_, ?_⟩
      · refine List.chain'_cons'.mpr ⟨?_, ch⟩
        intro y hy
        have hy' : (mergeGo c cs).head?.map (fun s => s.startMs) = some y.startMs := by
          rw [hy]; rfl
        rw [hd] at hy'
        have hys : y.startMs = c.startMs := by
          have := Option.some.inj hy'
          omega
        exact ⟨by omega, by rw [hys]; exact hlast_c⟩
      · intro hpre o ho
        rcases List.mem_cons.mp ho with rfl | ho'
        · exact hpre.1
        · exact eg ⟨hpre.2 c (List.mem_cons_self c cs),
            fun x hx => hpre.2 x (List.mem_cons_of_mem c hx)⟩ o ho'
      · intro o ho
        rcases List.mem_cons.mp ho with rfl | ho'
        · exact Or.inl rfl
        · rcases sv o ho' with h1 | ⟨x, hx, hxe⟩
          · exact Or.inr ⟨c, List.mem_cons_self c cs, h1⟩
          · exact Or.inr ⟨x, List.mem_cons_of_mem c hx, hxe⟩

theorem mergeOverlappingSkips_pairwise {l : List Skip} (h : List.Pairwise skipLE l) :
    List.Pairwise sepBy (mergeOverlappingSkips l) := by
  cases l with
  | nil => exact List.Pairwise.nil
  | cons s rest =>
    have := (mergeGo_spec rest s h).1
    exact List.chain'_iff_pairwise.mp this

theorem mergeOverlappingSkips_endGt {l : List Skip}
    (hs : List.Pairwise skipLE l) (h : ∀ o ∈ l, o.startMs < o.endMs) :
    ∀ o ∈ mergeOverlappingSkips l, o.startMs < o.endMs := by
  cases l with
  | nil => intro o ho; exact absurd ho (List.not_mem_nil o)
  | cons s rest =>
    exact (mergeGo_spec rest s hs).2.2.1
      ⟨h s (List.mem_cons_self s rest), fun c hc => h c (List.mem_cons_of_mem s hc)⟩

theorem mergeOverlappingSkips_severity {l : List Skip} (hs : List.Pairwise skipLE l) :
    ∀ o ∈ mergeOverlappingSkips l, ∃ c ∈ l, o.severity = c.severity := by
  cases l with
  | nil => intro o ho; exact absurd ho (List.not_mem_nil o)
  | cons s rest =>
    intro o ho
    rcases (mergeGo_spec rest s hs).2.2.2 o ho with h1 | ⟨x, hx, hxe⟩
    · exact ⟨s, List.mem_cons_self s rest, h1⟩
    · exact ⟨x, List.mem_cons_of_mem s hx, hxe⟩

/-! ### Claim C1 (sortedness, non-overlap, positive length invariants) -/

/-- Claim C1: for every input segment list and preference map, the resolved
list is sorted ascending by `startMs` and contains no two distinct
overlapping intervals; and when every input segment has `endMs > startMs`,
so does every output interval. -/
theorem claim_C1 (segs : List Segment) (uc : Str → Option Str) :
    List.Pairwise skipLE (generateSkips segs uc)
    ∧ (∀ i j : Fin (generateSkips segs uc).length, i ≠ j →
        ¬ overlaps ((generateSkips segs uc).get i) ((generateSkips segs uc).get j))
    ∧ ((∀ s ∈ segs, s.startMs < s.endMs) →
        ∀ o ∈ generateSkips segs uc, o.startMs < o.endMs) := by
  by_cases hemp : segs.isEmpty
  · have hout : generateSkips segs uc = [] := by simp [generateSkips, hemp]
    refine ⟨?_, ?_, ?_⟩
    · rw [hout]; exact List.Pairwise.nil
    · intro i j _
      rw [hout] at i
      exact absurd i.2 (by simp)
    · intro _ o ho
      rw [hout] at ho
      exact absurd ho (List.not_mem_nil o)
  · have hout : generateSkips segs uc
        = mergeOverlappingSkips (List.insertionSort skipLE (filteredSkips uc segs)) := by
      simp [generateSkips, hemp]
    have hsorted : List.Pairwise skipLE (List.insertionSort skipLE (filteredSkips uc segs)) :=
      List.sorted_insertionSort skipLE (filteredSkips uc segs)
    have hsep : List.Pairwise sepBy (generateSkips segs uc) := by
      rw [hout]; exact mergeOverlappingSkips_pairwise hsorted
    refine ⟨?_, ?_, ?_⟩
    · exact hsep.imp fun h => h.2
    · intro i j hne hov
      rcases lt_trichotomy i j with hij | hij | hij
      · have := List.pairwise_iff_get.mp hsep i j hij
        have h1 := this.1
        have h2 := hov.2
        omega
      · exact hne hij
      · have := List.pairwise_iff_get.mp hsep j i hij
        have h1 := this.1
        have h2 := hov.1
        omega
    · intro hpre o ho
      rw [hout] at ho
      refine mergeOverlappingSkips_endGt hsorted ?_ o ho
      intro x hx
      have hx' : x ∈ filteredSkips uc segs :=
        (List.Perm.mem_iff (List.perm_insertionSort skipLE (filteredSkips uc segs))).mp hx
      simp only [filteredSkips, List.mem_filterMap] at hx'
      obtain ⟨s, hs, hxs⟩ := hx'
      by_cases hk : keepSegment uc s
      · rw [if_pos hk] at hxs
        have hx2 : x = toSkip s := (Option.some.inj hxs).symm
        have := hpre s hs
        rw [hx2]
        exact this
      · rw [if_neg hk] at hxs
        exact Option.noConfusion hxs

theorem claim_C1_witness :
    List.Pairwise skipLE (generateSkips c1segs (violencePrefs mediumTok))
    ∧ (∀ i j : Fin (generateSkips c1segs (violencePrefs mediumTok)).length, i ≠ j →
        ¬ overlaps ((generateSkips c1segs (violencePrefs mediumTok)).get i)
          ((generateSkips c1segs (violencePrefs mediumTok)).get j))
    ∧ (∀ o ∈ generateSkips c1segs (violencePrefs mediumTok), o.startMs < o.endMs) :=
  ⟨(claim_C1 c1segs (violencePrefs mediumTok)).1,
   (claim_C1 c1segs (violencePrefs mediumTok)).2.1,
   (claim_C1 c1segs (violencePrefs mediumTok)).2.2 (by decide)⟩

/-! ### Claim C2 (treatment of an unset severity) -/

/-- Claim C2, counterexample: a segment whose `severity` property is absent is
dropped for every threshold `low`/`medium`/`high` — `SEVERITY_LEVELS[undefined]`
is `undefined` and a JS `>=` against `undefined` is false — so it is not
retained (the spec says it should be treated as `high` and retained). -/
theorem claim_C2_counterexample :
    c2seg.severity = none
    ∧ generateSkips [c2seg] (violencePrefs lowTok) = []
    ∧ generateSkips [c2seg] (violencePrefs mediumTok) = []
    ∧ generateSkips [c2seg] (violencePrefs highTok) = [] := by
  refine ⟨rfl, ?_, ?_, ?_⟩ <;> decide

theorem keepSegment_severity_ne_none {uc : Str → Option Str} {s : Segment}
    (hk : keepSegment uc s = true) : s.severity ≠ none := by
  intro hsev
  have hnone : sevLevelOf s.severity = none := by rw [hsev]; rfl
  unfold keepSegment at hk
  cases hcfg : configOf uc s.category with
  | none => rw [hcfg] at hk; simp at hk
  | some t =>
    rw [hcfg] at hk
    simp only [hnone] at hk
    split at hk
    · exact Bool.noConfusion hk
    · cases SEVERITY_LEVELS t <;> simp [jsGE] at hk

/-- Claim C2, amended: a segment whose severity is unset is never retained —
under every preference map, every interval in the resolved output originates
from a segment whose severity is set (absent severity compares as false
against every threshold, so such segments are always filtered out). -/
theorem claim_C2 (segs : List Segment) (uc : Str → Option Str) :
    ∀ o ∈ generateSkips segs uc, o.severity ≠ none := by
  intro o ho
  by_cases hemp : segs.isEmpty
  · rw [show generateSkips segs uc = [] by simp [generateSkips, hemp]] at ho
    exact absurd ho (List.not_mem_nil o)
  · rw [show generateSkips segs uc
        = mergeOverlappingSkips (List.insertionSort skipLE (filteredSkips uc segs)) by
      simp [generateSkips, hemp]] at ho
    have hsorted : List.Pairwise skipLE (List.insertionSort skipLE (filteredSkips uc segs)) :=
      List.sorted_insertionSort skipLE (filteredSkips uc segs)
    obtain ⟨c, hc, hce⟩ := mergeOverlappingSkips_severity hsorted o ho
    have hc' : c ∈ filteredSkips uc segs :=
      (List.Perm.mem_iff (List.perm_insertionSort skipLE (filteredSkips uc segs))).mp hc
    simp only [filteredSkips, List.mem_filterMap] at hc'
    obtain ⟨s, _, hcs⟩ := hc'
    by_cases hk : keepSegment uc s
    · rw [if_pos hk] at hcs
      have hc2 : c = toSkip s := (Option.some.inj hcs).symm
      rw [hce, hc2]
      show s.severity ≠ none
      exact keepSegment_severity_ne_none hk
    · rw [if_neg hk] at hcs
      exact Option.noConfusion hcs

theorem claim_C2_witness : (toSkip c2segHigh).severity ≠ none :=
  claim_C2 [c2segHigh] (violencePrefs lowTok) (toSkip c2segHigh) (by decide)

/-! ### Claim C6 (merge correctness at the 500ms gap constant) -/

/-- Claim C6: `[0,1000)` and `[1400,2000)` merge into `[0,2000)` (gap 400 ≤
500), while `[0,1000)` and `[2000,3000)` stay separate (gap 1000 > 500); in
general a sorted segment merges into the previous kept interval exactly when
`startMs ≤ previous.endMs + 500`, and merging extends `endMs` to the max. -/
theorem claim_C6 :
    (mergeOverlappingSkips [c6a, c6b]).map (fun s => (s.startMs, s.endMs))
      = [((0 : Int), (2000 : Int))]
    ∧ (mergeOverlappingSkips [c6a, c6c]).map (fun s => (s.startMs, s.endMs))
      = [((0 : Int), (1000 : Int)), ((2000 : Int), (3000 : Int))]
    ∧ (∀ a b : Skip, mergeOverlappingSkips [a, b]
        = if b.startMs ≤ a.endMs + 500 then [mergeInto a b] else [a, b])
    ∧ (∀ a b : Skip, (mergeInto a b).endMs = max a.endMs b.endMs) := by
  refine ⟨by decide, by decide, ?_, fun a b => rfl⟩
  intro a b
  by_cases h : b.startMs ≤ a.endMs + 500 <;>
    simp [mergeOverlappingSkips, mergeGo, h]

/-! ### Claim C8 (unrecognized threshold strings behave as off) -/

theorem SEVERITY_LEVELS_eq_none {v : Str}
    (h : v ∉ ([offTok, lowTok, mediumTok, highTok] : List Str)) :
    SEVERITY_LEVELS v = none := by
  have h0 : ¬ v = offTok := fun he => h (by simp [he])
  have h1 : ¬ v = lowTok := fun he => h (by simp [he])
  have hm : ¬ v = mediumTok := fun he => h (by simp [he])
  have h3 : ¬ v = highTok := fun he => h (by simp [he])
  unfold SEVERITY_LEVELS
  rw [if_neg h0, if_neg h1, if_neg hm, if_neg h3]

theorem jsGE_none_right (x : Option Nat) : jsGE x none = false := by
  cases x <;> rfl

/-- Claim C8: a preference value outside `{off, low, medium, high}` behaves
exactly as `off` — replacing it by `'off'` leaves the resolved output
unchanged (its `SEVERITY_LEVELS` lookup is `undefined`, so the `>=` test
fails for every segment, exactly as the early `'off'` drop does). -/
theorem claim_C8 (segs : List Segment) (uc : Str → Option Str) (c v : Str)
    (h1 : uc c = some v) (h2 : v ∉ ([offTok, lowTok, mediumTok, highTok] : List Str)) :
    generateSkips segs uc
      = generateSkips segs (fun x => if x = c then some offTok else uc x) := by
  have hkeep : ∀ s : Segment,
      keepSegment uc s = keepSegment (fun x => if x = c then some offTok else uc x) s := by
    intro s
    by_cases hcat : s.category = c
    · have hl : configOf uc s.category = some v := by
        unfold configOf
        rw [hcat, h1]
      have hr : configOf (fun x => if x = c then some offTok else uc x) s.category
          = some offTok := by
        unfold configOf
        rw [hcat]
        simp
      unfold keepSegment
      rw [hl, hr]
      show (if v = [] ∨ v = offTok then false
            else jsGE (sevLevelOf s.severity) (SEVERITY_LEVELS v))
          = (if offTok = [] ∨ offTok = offTok then false
            else jsGE (sevLevelOf s.severity) (SEVERITY_LEVELS offTok))
      rw [if_pos (Or.inr rfl)]
      by_cases hv : v = [] ∨ v = offTok
      · rw [if_pos hv]
      · rw [if_neg hv, SEVERITY_LEVELS_eq_none h2, jsGE_none_right]
    · have : configOf uc s.category
          = configOf (fun x => if x = c then some offTok else uc x) s.category := by
        unfold configOf
        rw [show (fun x => if x = c then some offTok else uc x) s.category
            = uc s.category by simp [hcat]]
      unfold keepSegment
      rw [this]
  have hfil : filteredSkips uc segs
      = filteredSkips (fun x => if x = c then some offTok else uc x) segs := by
    unfold filteredSkips
    exact List.filterMap_congr fun s _ => by rw [hkeep s]
  unfold generateSkips
  rw [hfil]

theorem claim_C8_witness :
    generateSkips c8segs c8uc
      = generateSkips c8segs
          (fun x => if x = nudityTok then some offTok else c8uc x) :=
  claim_C8 c8segs c8uc nudityTok (("aggressive").toList) (by decide) (by decide)

/-! ### Basic string lemmas -/

theorem mem_of_head? {α} {l : List α} {c : α} (h : l.head? = some c) : c ∈ l := by
  cases l with
  | nil => exact Option.noConfusion h
  | cons x xs =>
    have : x = c := Option.some.inj h
    rw [← this]
    exact List.mem_cons_self x xs

theorem head?_append_left {α} {l₁ l₂ : List α} (h : l₁ ≠ []) :
    (l₁ ++ l₂).head? = l₁.head? := by
  cases l₁ with
  | nil => exact absurd rfl h
  | cons x xs => rfl

theorem reverse_head_append {α} {l₁ l₂ : List α} (h : l₂ ≠ []) :
    (l₁ ++ l₂).reverse.head? = l₂.reverse.head? := by
  rw [List.reverse_append, head?_append_left (by simpa using h)]

theorem dropWhile_eq_self_of_head {p : Char → Bool} {s : Str}
    (h : ∀ c, s.head? = some c → p c = false) : s.dropWhile p = s := by
  cases s with
  | nil => rfl
  | cons c rest => simp [List.dropWhile_cons, h c rfl]

theorem jsTrim_eq_self {s : Str}
    (h1 : ∀ c, s.head? = some c → isWsChar c = false)
    (h2 : ∀ c, s.reverse.head? = some c → isWsChar c = false) : jsTrim s = s := by
  unfold jsTrim
  rw [dropWhile_eq_self_of_head h1, dropWhile_eq_self_of_head h2, List.reverse_reverse]

theorem strStartsWith_append (p s : Str) : strStartsWith (p ++ s) p = true := by
  induction p with
  | nil => cases s <;> rfl
  | cons c cs ih => simp [strStartsWith, ih]

theorem containsSub_false_of_no_head {c0 : Char} {cs s : Str}
    (h : ∀ x ∈ s, (x == c0) = false) : containsSub (c0 :: cs) s = false := by
  induction s with
  | nil => rfl
  | cons x rest ih =>
    have hx : (x == c0) = false := h x (List.mem_cons_self x rest)
    simp only [containsSub, strStartsWith, hx, Bool.false_and, Bool.false_or]
    exact ih fun y hy => h y (List.mem_cons_of_mem x hy)

theorem containsSub_boundary (c0 : Char) (cs : Str) :
    ∀ (a r : Str), containsSub (c0 :: cs) (a ++ (c0 :: cs) ++ r) = true := by
  intro a r
  induction a with
  | nil =>
    show containsSub (c0 :: cs) (c0 :: (cs ++ r)) = true
    rw [show containsSub (c0 :: cs) (c0 :: (cs ++ r))
        = (strStartsWith (c0 :: (cs ++ r)) (c0 :: cs)
            || containsSub (c0 :: cs) (cs ++ r)) from rfl]
    rw [show (c0 :: (cs ++ r)) = (c0 :: cs) ++ r from rfl, strStartsWith_append]
    rfl
  | cons x a' ih =>
    show containsSub (c0 :: cs) (x :: (a' ++ (c0 :: cs) ++ r)) = true
    rw [show containsSub (c0 :: cs) (x :: (a' ++ (c0 :: cs) ++ r))
        = (strStartsWith (x :: (a' ++ (c0 :: cs) ++ r)) (c0 :: cs)
            || containsSub (c0 :: cs) (a' ++ (c0 :: cs) ++ r)) from rfl]
    rw [ih]
    simp

/-! ### jsSplit lemmas -/

theorem jsSplitAux_fuelIrrel (c0 : Char) (cs : Str) :
    ∀ f1 : Nat, ∀ {f2 : Nat} {s acc : Str}, s.length < f1 → s.length < f2 →
      jsSplitAux c0 cs f1 s acc = jsSplitAux c0 cs f2 s acc := by
  intro f1
  induction f1 with
  | zero => intro f2 s acc h1 _; omega
  | succ g ih =>
    intro f2 s acc h1 h2
    cases f2 with
    | zero => omega
    | succ g2 =>
      cases s with
      | nil => rfl
      | cons x rest =>
        simp only [jsSplitAux]
        have hlen : (List.drop cs.length rest).length ≤ rest.length := by
          rw [List.length_drop]
          omega
        by_cases hsw : strStartsWith (x :: rest) (c0 :: cs) = true
        · rw [if_pos hsw, if_pos hsw]
          congr 1
          exact ih (by simp at h1; omega) (by simp at h2; omega)
        · rw [if_neg hsw, if_neg hsw]
          exact ih (by simp at h1; omega) (by simp at h2; omega)

theorem jsSplitAux_no_match (c0 : Char) (cs : Str) :
    ∀ (fuel : Nat) (s acc : Str), s.length < fuel →
      containsSub (c0 :: cs) s = false →
      jsSplitAux c0 cs fuel s acc = [acc.reverse ++ s] := by
  intro fuel
  induction fuel with
  | zero => intro s acc h1 _; omega
  | succ g ih =>
    intro s acc h1 h2
    cases s with
    | nil => simp [jsSplitAux]
    | cons x rest =>
      simp only [containsSub, Bool.or_eq_false_iff] at h2
      simp only [jsSplitAux, h2.1, if_neg]
      rw [if_neg (by simp [h2.1])]
      rw [ih rest (x :: acc) (by simp at h1 ⊢; omega) h2.2]
      simp

theorem jsSplitAux_boundary (c0 : Char) (cs : Str) :
    ∀ (a : Str) {r acc : Str} {fuel : Nat}, (a ++ (c0 :: cs) ++ r).length < fuel →
      (∀ x ∈ a, (x == c0) = false) →
      jsSplitAux c0 cs fuel (a ++ (c0 :: cs) ++ r) acc
        = (acc.reverse ++ a) :: jsSplitAux c0 cs (r.length + 1) r [] := by
  intro a
  induction a with
  | nil =>
    intro r acc fuel h1 _
    cases fuel with
    | zero => simp at h1
    | succ g =>
      show jsSplitAux c0 cs (g + 1) (c0 :: (cs ++ r)) acc = _
      have hsw : strStartsWith (c0 :: (cs ++ r)) (c0 :: cs) = true :=
        strStartsWith_append (c0 :: cs) r
      simp only [jsSplitAux, hsw, if_pos]
      rw [show List.drop cs.length (cs ++ r) = r from List.drop_left cs r]
      rw [@jsSplitAux_fuelIrrel c0 cs g (r.length + 1) r []
        (by simp at h1; omega) (by omega)]
      simp
  | cons x a' ih =>
    intro r acc fuel h1 h2
    cases fuel with
    | zero => simp at h1
    | succ g =>
      have hx : (x == c0) = false := h2 x (List.mem_cons_self x a')
      show jsSplitAux c0 cs (g + 1) (x :: (a' ++ (c0 :: cs) ++ r)) acc = _
      have hsw : strStartsWith (x :: (a' ++ (c0 :: cs) ++ r)) (c0 :: cs) = false := by
        simp [strStartsWith, hx]
      simp only [jsSplitAux, hsw]
      rw [if_neg (by simp [hsw])]
      rw [ih (by simp at h1 ⊢; omega) (fun y hy => h2 y (List.mem_cons_of_mem x hy))]
      simp

theorem jsSplit_no_match {sep s : Str} (hsep : sep ≠ [])
    (h : containsSub sep s = false) : jsSplit sep s = [s] := by
  cases sep with
  | nil => exact absurd rfl hsep
  | cons c0 cs =>
    show jsSplitAux c0 cs (s.length + 1) s [] = [s]
    rw [jsSplitAux_no_match c0 cs (s.length + 1) s [] (by omega) h]
    rfl

theorem jsSplit_boundary {c0 : Char} {cs a r : Str}
    (h : ∀ x ∈ a, (x == c0) = false) :
    jsSplit (c0 :: cs) (a ++ (c0 :: cs) ++ r) = a :: jsSplit (c0 :: cs) r := by
  show jsSplitAux c0 cs ((a ++ (c0 :: cs) ++ r).length + 1) (a ++ (c0 :: cs) ++ r) []
      = a :: jsSplitAux c0 cs (r.length + 1) r []
  rw [jsSplitAux_boundary c0 cs a (by omega) h]
  rfl

/-! ### splitLines lemmas -/

theorem splitLinesAux_fuelIrrel :
    ∀ f1 : Nat, ∀ {f2 : Nat} {s acc : Str}, s.length < f1 → s.length < f2 →
      splitLinesAux f1 s acc = splitLinesAux f2 s acc := by
  intro f1
  induction f1 with
  | zero => intro f2 s acc h1 _; omega
  | succ g ih =>
    intro f2 s acc h1 h2
    cases f2 with
    | zero => omega
    | succ g2 =>
      cases s with
      | nil => rfl
      | cons x rest =>
        simp only [splitLinesAux]
        by_cases hcr : x = '\r' ∧ rest.head? = some '\n'
        · rw [if_pos hcr, if_pos hcr]
          congr 1
          exact ih (by simp at h1 ⊢; omega) (by simp at h2 ⊢; omega)
        · rw [if_neg hcr, if_neg hcr]
          by_cases hn : x = '\n'
          · rw [if_pos hn, if_pos hn]
            congr 1
            exact ih (by simp at h1; omega) (by simp at h2; omega)
          · rw [if_neg hn, if_neg hn]
            exact ih (by simp at h1; omega) (by simp at h2; omega)

theorem splitLinesAux_line :
    ∀ (l : Str) {rest acc : Str} {fuel : Nat}, (l ++ '\n' :: rest).length < fuel →
      noCR l = true →
      splitLinesAux fuel (l ++ '\n' :: rest) acc
        = (acc.reverse ++ l) :: splitLinesAux (rest.length + 1) rest [] := by
  intro l
  induction l with
  | nil =>
    intro rest acc fuel h1 _
    cases fuel with
    | zero => simp at h1
    | succ g =>
      show splitLinesAux (g + 1) ('\n' :: rest) acc = _
      rw [show splitLinesAux (g + 1) ('\n' :: rest) acc
          = if '\n' = '\r' ∧ rest.head? = some '\n' then
              acc.reverse :: splitLinesAux g (rest.drop 1) []
            else if '\n' = '\n' then acc.reverse :: splitLinesAux g rest []
            else splitLinesAux g rest ('\n' :: acc) from rfl]
      rw [if_neg (by simp), if_pos rfl]
      rw [@splitLinesAux_fuelIrrel g (rest.length + 1) rest []
        (by simp at h1; omega) (by omega)]
      simp
  | cons x l' ih =>
    intro rest acc fuel h1 hcr
    have hx : (x == '\n') = false ∧ (x == '\r') = false := by
      have := hcr
      unfold noCR at this
      simp only [List.all_cons, Bool.and_eq_true] at this
      exact ⟨by simpa using this.1.1, by simpa using this.1.2⟩
    cases fuel with
    | zero => simp at h1
    | succ g =>
      show splitLinesAux (g + 1) (x :: (l' ++ '\n' :: rest)) acc = _
      rw [show splitLinesAux (g + 1) (x :: (l' ++ '\n' :: rest)) acc
          = if x = '\r' ∧ (l' ++ '\n' :: rest).head? = some '\n' then
              acc.reverse :: splitLinesAux g ((l' ++ '\n' :: rest).drop 1) []
            else if x = '\n' then acc.reverse :: splitLinesAux g (l' ++ '\n' :: rest) []
            else splitLinesAux g (l' ++ '\n' :: rest) (x :: acc) from rfl]
      rw [if_neg (by simp_all), if_neg (by simp_all)]
      rw [ih (by simp at h1 ⊢; omega)
        (by unfold noCR at hcr ⊢; simp only [List.all_cons, Bool.and_eq_true] at hcr;
            exact hcr.2)]
      simp

theorem splitLines_joinNL :
    ∀ ls : List Str, (∀ l ∈ ls, noCR l = true) → splitLines (joinNL ls) = ls ++ [[]] := by
  intro ls
  induction ls with
  | nil => intro _; rfl
  | cons l ls' ih =>
    intro h
    show splitLinesAux ((l ++ '\n' :: joinNL ls').length + 1) (l ++ '\n' :: joinNL ls') [] = _
    rw [splitLinesAux_line l (by omega) (h l (List.mem_cons_self l ls'))]
    rw [show splitLinesAux ((joinNL ls').length + 1) (joinNL ls') [] = splitLines (joinNL ls')
      from rfl]
    rw [ih fun x hx => h x (List.mem_cons_of_mem l hx)]
    rfl

/-! ### Character-class facts about generated text -/

theorem digitChar_facts (k : Nat) :
    isWsChar (digitChar k) = false ∧ (digitChar k == '\n') = false
    ∧ (digitChar k == '\r') = false ∧ (digitChar k == ' ') = false
    ∧ (digitChar k == '-') = false ∧ (digitChar k == '+') = false
    ∧ (digitChar k == '=') = false ∧ (digitChar k).isDigit = true := by
  unfold digitChar
  split <;> exact (by decide)

theorem natToDigitsAux_ne_nil : ∀ (fuel n : Nat), natToDigitsAux fuel n ≠ [] := by
  intro fuel n
  cases fuel with
  | zero => exact List.cons_ne_nil _ _
  | succ f =>
    by_cases h : n < 10
    · simp [natToDigitsAux, h]
    · simp [natToDigitsAux, h]

theorem exists_digitChar_of_mem_natToDigitsAux :
    ∀ (fuel n : Nat), ∀ c ∈ natToDigitsAux fuel n, ∃ k, c = digitChar k := by
  intro fuel
  induction fuel with
  | zero =>
    intro n c hc
    simp only [natToDigitsAux, List.mem_singleton] at hc
    exact ⟨n, hc⟩
  | succ f ih =>
    intro n c hc
    by_cases h : n < 10
    · simp only [natToDigitsAux, if_pos h, List.mem_singleton] at hc
      exact ⟨n, hc⟩
    · simp only [natToDigitsAux, if_neg h, List.mem_append, List.mem_singleton] at hc
      rcases hc with hc | hc
      · exact ih (n / 10) c hc
      · exact ⟨n % 10, hc⟩

theorem exists_digitChar_of_mem_natToDigits {n : Nat} {c : Char}
    (h : c ∈ natToDigits n) : ∃ k, c = digitChar k :=
  exists_digitChar_of_mem_natToDigitsAux n n c h

theorem digitsVal_append_singleton (l : Str) (c : Char) :
    digitsVal (l ++ [c]) = digitsVal l * 10 + toDigit c := by
  simp [digitsVal, List.foldl_append]

theorem digitsVal_natToDigitsAux :
    ∀ (fuel n : Nat), n ≤ fuel → digitsVal (natToDigitsAux fuel n) = n := by
  intro fuel
  induction fuel with
  | zero =>
    intro n h
    have : n = 0 := by omega
    subst this
    decide
  | succ f ih =>
    intro n h
    by_cases h10 : n < 10
    · rw [natToDigitsAux, if_pos h10]
      show 0 * 10 + toDigit (digitChar n) = n
      rw [toDigit_digitChar h10]
      omega
    · rw [natToDigitsAux, if_neg h10, digitsVal_append_singleton]
      rw [ih (n / 10) (by omega), toDigit_digitChar (by omega)]
      omega

theorem digitsVal_natToDigits (n : Nat) : digitsVal (natToDigits n) = n :=
  digitsVal_natToDigitsAux n n le_rfl

theorem takeWhile_eq_self_of_all {p : Char → Bool} :
    ∀ {l : Str}, (∀ c ∈ l, p c = true) → l.takeWhile p = l := by
  intro l
  induction l with
  | nil => intro _; rfl
  | cons c rest ih =>
    intro h
    rw [List.takeWhile_cons, if_pos (h c (List.mem_cons_self c rest))]
    rw [ih fun x hx => h x (List.mem_cons_of_mem c hx)]

theorem jsParseInt_eval {c : Char} {r : Str} (hws : isWsChar c = false) :
    jsParseInt (c :: r)
      = if (c == '-') = true then (digitsOfPrefix r).map (fun n => -(n : Int))
        else if (c == '+') = true then (digitsOfPrefix r).map (fun n => (n : Int))
        else (digitsOfPrefix (c :: r)).map (fun n => (n : Int)) := by
  unfold jsParseInt
  rw [show (c :: r).dropWhile isWsChar = c :: r from by simp [List.dropWhile_cons, hws]]

theorem jsParseInt_natToDigits (n : Nat) : jsParseInt (natToDigits n) = some (n : Int) := by
  cases hnd : natToDigits n with
  | nil => exact absurd hnd (natToDigitsAux_ne_nil n n)
  | cons d rest =>
    have hd : ∃ k, d = digitChar k :=
      exists_digitChar_of_mem_natToDigits (hnd ▸ List.mem_cons_self d rest)
    obtain ⟨k, rfl⟩ := hd
    rw [jsParseInt_eval (digitChar_facts k).1]
    rw [if_neg (by rw [(digitChar_facts k).2.2.2.2.1]; exact Bool.noConfusion)]
    rw [if_neg (by rw [(digitChar_facts k).2.2.2.2.2.1]; exact Bool.noConfusion)]
    unfold digitsOfPrefix
    rw [show (digitChar k :: rest).takeWhile Char.isDigit = digitChar k :: rest from
      takeWhile_eq_self_of_all fun c hc => by
        obtain ⟨j, hj⟩ := exists_digitChar_of_mem_natToDigits (hnd ▸ hc)
        rw [hj]
        exact (digitChar_facts j).2.2.2.2.2.2.2]
    have hval : digitsVal (digitChar k :: rest) = n := hnd ▸ digitsVal_natToDigits n
    simp [hval]

theorem jsParseInt_intToDigits_pos {n : Int} (h : 0 < n) :
    jsParseInt (intToDigits n) = some n := by
  unfold intToDigits
  rw [if_neg (by omega)]
  rw [jsParseInt_natToDigits n.toNat]
  congr 1
  exact Int.toNat_of_nonneg (by omega)

theorem cleanRight_ne_nil {v : Str} (h : cleanRight v = true) : v ≠ [] := by
  intro he
  rw [he] at h
  exact absurd h (by decide)

theorem cleanRight_rev_head {v : Str} (h : cleanRight v = true) :
    ∀ c, v.reverse.head? = some c → isWsChar c = false := by
  intro c hc
  cases hrev : v.reverse with
  | nil => rw [hrev] at hc; exact Option.noConfusion hc
  | cons d ds =>
    rw [hrev] at hc
    have hcd : d = c := Option.some.inj hc
    have h' : (!isWsChar d && noCR v) = true := by
      have h2 := h
      unfold cleanRight at h2
      rw [hrev] at h2
      exact h2
    rw [Bool.and_eq_true] at h'
    have h3 := h'.1
    rw [← hcd]
    cases hiw : isWsChar d
    · rfl
    · rw [hiw] at h3; exact absurd h3 (by decide)

theorem cleanRight_noCR {v : Str} (h : cleanRight v = true) : noCR v = true := by
  cases hrev : v.reverse with
  | nil =>
    have := cleanRight_ne_nil h
    rw [← List.reverse_reverse v, hrev] at this
    exact absurd rfl this
  | cons d ds =>
    have h' : (!isWsChar d && noCR v) = true := by
      have h2 := h
      unfold cleanRight at h2
      rw [hrev] at h2
      exact h2
    rw [Bool.and_eq_true] at h'
    exact h'.2

theorem cleanRight_natToDigits (n : Nat) : cleanRight (natToDigits n) = true := by
  cases hrev : (natToDigits n).reverse with
  | nil =>
    have : natToDigits n = [] := by
      rw [← List.reverse_reverse (natToDigits n), hrev]
      rfl
    exact absurd this (natToDigitsAux_ne_nil n n)
  | cons d ds =>
    unfold cleanRight
    rw [hrev]
    have hd : d ∈ natToDigits n := by
      rw [← List.mem_reverse, hrev]
      exact List.mem_cons_self d ds
    obtain ⟨k, rfl⟩ := exists_digitChar_of_mem_natToDigits hd
    simp only [(digitChar_facts k).1, Bool.not_false, Bool.true_and]
    unfold noCR
    rw [List.all_eq_true]
    intro c hc
    obtain ⟨j, rfl⟩ := exists_digitChar_of_mem_natToDigits hc
    simp [(digitChar_facts j).2.1, (digitChar_facts j).2.2.1]

theorem cleanRight_intToDigits_pos {n : Int} (h : 0 < n) :
    cleanRight (intToDigits n) = true := by
  unfold intToDigits
  rw [if_neg (by omega)]
  exact cleanRight_natToDigits n.toNat

/-! ### formatTimestamp character facts -/

theorem mem_padStart {k : Nat} {c0 c : Char} {t : Str}
    (h : c ∈ padStart k c0 t) : c = c0 ∨ c ∈ t := by
  unfold padStart at h
  rcases List.mem_append.mp h with h | h
  · exact Or.inl (List.eq_of_mem_replicate h)
  · exact Or.inr h

theorem formatTimestamp_chars {m : Nat} :
    ∀ c ∈ formatTimestamp m, (∃ k, c = digitChar k) ∨ c = ':' ∨ c = '.' := by
  intro c hc
  unfold formatTimestamp at hc
  have hdig : ∀ {x : Nat}, c ∈ padStart 2 '0' (natToDigits x) ∨ c ∈ padStart 3 '0' (natToDigits x) →
      ∃ k, c = digitChar k := by
    intro x hx
    rcases hx with hx | hx <;>
      rcases mem_padStart hx with h0 | h0
    · exact ⟨0, h0⟩
    · exact exists_digitChar_of_mem_natToDigits h0
    · exact ⟨0, h0⟩
    · exact exists_digitChar_of_mem_natToDigits h0
  rcases List.mem_append.mp hc with h1 | h1
  · exact Or.inl (hdig (Or.inl h1))
  rcases List.mem_cons.mp h1 with rfl | h2
  · exact Or.inr (Or.inl rfl)
  rcases List.mem_append.mp h2 with h3 | h3
  · exact Or.inl (hdig (Or.inl h3))
  rcases List.mem_cons.mp h3 with rfl | h4
  · exact Or.inr (Or.inl rfl)
  rcases List.mem_append.mp h4 with h5 | h5
  · exact Or.inl (hdig (Or.inl h5))
  rcases List.mem_cons.mp h5 with rfl | h6
  · exact Or.inr (Or.inr rfl)
  · exact Or.inl (hdig (Or.inr h6))

theorem formatTimestamp_not_ws {m : Nat} :
    ∀ c ∈ formatTimestamp m, isWsChar c = false := by
  intro c hc
  rcases formatTimestamp_chars c hc with ⟨k, rfl⟩ | rfl | rfl
  · exact (digitChar_facts k).1
  · decide
  · decide

theorem formatTimestamp_no_space {m : Nat} :
    ∀ c ∈ formatTimestamp m, (c == ' ') = false := by
  intro c hc
  rcases formatTimestamp_chars c hc with ⟨k, rfl⟩ | rfl | rfl
  · exact (digitChar_facts k).2.2.2.1
  · decide
  · decide

theorem formatTimestamp_noCR (m : Nat) : noCR (formatTimestamp m) = true := by
  unfold noCR
  rw [List.all_eq_true]
  intro c hc
  rcases formatTimestamp_chars c hc with ⟨k, rfl⟩ | rfl | rfl
  · simp [(digitChar_facts k).2.1, (digitChar_facts k).2.2.1]
  · decide
  · decide

theorem formatTimestamp_ne_nil (m : Nat) : formatTimestamp m ≠ [] := by
  unfold formatTimestamp
  intro h
  rcases List.append_eq_nil.mp h with ⟨_, h2⟩
  exact List.cons_ne_nil _ _ h2

/-! ### Filter-line round trip -/

theorem beq_eq_false_of_ne {x y : Char} (h : x ≠ y) : (x == y) = false := by
  cases hb : x == y
  · rfl
  · exact absurd (by simpa using hb) h

theorem beq_space_eq_false {x : Char} (h : isWsChar x = false) : (x == ' ') = false := by
  cases hb : x == ' '
  · rfl
  · unfold isWsChar at h
    rw [hb] at h
    simp at h

theorem bareToken_facts {t : Str} (h : bareToken t = true) :
    t ≠ [] ∧ (∀ x ∈ t, isWsChar x = false) ∧ (∀ x ∈ t, (x == ' ') = false)
      ∧ (∀ x ∈ t, (x == '=') = false) := by
  unfold bareToken at h
  rw [Bool.and_eq_true, decide_eq_true_iff, List.all_eq_true] at h
  refine ⟨h.1, ?_, ?_, ?_⟩
  · intro x hx
    have := h.2 x hx
    rw [Bool.and_eq_true] at this
    cases hw : isWsChar x
    · rfl
    · have h1 := this.1
      rw [hw] at h1
      exact absurd h1 (by decide)
  · intro x hx
    have := h.2 x hx
    rw [Bool.and_eq_true] at this
    have h1 := this.1
    apply beq_space_eq_false
    cases hw : isWsChar x
    · rfl
    · rw [hw] at h1; exact absurd h1 (by decide)
  · intro x hx
    have := h.2 x hx
    rw [Bool.and_eq_true] at this
    have h2 := this.2
    cases hb : x == '='
    · rfl
    · rw [hb] at h2; exact absurd h2 (by decide)

theorem hashSep_eq : hashSep = ' ' :: '#' :: ' ' :: [] := rfl

theorem arrowSep_eq : arrowSep = ' ' :: '-' :: '-' :: '>' :: ' ' :: [] := rfl

theorem eqSep_eq : eqSep = '=' :: [] := rfl

theorem jsSplit_boundary_cons {c0 : Char} {a r : Str}
    (h : ∀ x ∈ a, (x == c0) = false) :
    jsSplit [c0] (a ++ c0 :: r) = a :: jsSplit [c0] r := by
  have := @jsSplit_boundary c0 [] a r h
  simpa using this

theorem fp_no_space_short {cat sev : Str}
    (hcatsp : ∀ x ∈ cat, (x == ' ') = false)
    (hsevsp : ∀ x ∈ sev, (x == ' ') = false) :
    ∀ x ∈ cat ++ '=' :: sev, (x == ' ') = false := by
  intro x hx
  rcases List.mem_append.mp hx with hx | hx
  · exact hcatsp x hx
  rcases List.mem_cons.mp hx with rfl | hx
  · decide
  · exact hsevsp x hx

theorem fp_no_space_long {cat sev ch : Str}
    (hcatsp : ∀ x ∈ cat, (x == ' ') = false)
    (hsevsp : ∀ x ∈ sev, (x == ' ') = false)
    (hchsp : ∀ x ∈ ch, (x == ' ') = false) :
    ∀ x ∈ cat ++ '=' :: sev ++ '=' :: ch, (x == ' ') = false := by
  intro x hx
  rcases List.mem_append.mp hx with hx | hx
  · exact fp_no_space_short hcatsp hsevsp x hx
  · rcases List.mem_cons.mp hx with rfl | hx
    · decide
    · exact hchsp x hx

theorem jsSplit_eq_short {cat sev : Str}
    (hcateq : ∀ x ∈ cat, (x == '=') = false)
    (hseveq : ∀ x ∈ sev, (x == '=') = false) :
    jsSplit eqSep (cat ++ '=' :: sev) = [cat, sev] := by
  rw [eqSep_eq, jsSplit_boundary_cons hcateq, ← eqSep_eq,
    jsSplit_no_match (by rw [eqSep_eq]; exact List.cons_ne_nil _ _)
      (by rw [eqSep_eq]; exact containsSub_false_of_no_head hseveq)]

theorem jsSplit_eq_long {cat sev ch : Str}
    (hcateq : ∀ x ∈ cat, (x == '=') = false)
    (hseveq : ∀ x ∈ sev, (x == '=') = false)
    (hcheq : ∀ x ∈ ch, (x == '=') = false) :
    jsSplit eqSep (cat ++ '=' :: sev ++ '=' :: ch) = [cat, sev, ch] := by
  rw [show cat ++ '=' :: sev ++ '=' :: ch = cat ++ '=' :: (sev ++ '=' :: ch) from by simp]
  rw [eqSep_eq, jsSplit_boundary_cons hcateq, jsSplit_boundary_cons hseveq, ← eqSep_eq,
    jsSplit_no_match (by rw [eqSep_eq]; exact List.cons_ne_nil _ _)
      (by rw [eqSep_eq]; exact containsSub_false_of_no_head hcheq)]

theorem jsSplit_hash_none {fp : Str} (hfp : ∀ x ∈ fp, (x == ' ') = false) :
    jsSplit hashSep fp = [fp] :=
  jsSplit_no_match (by rw [hashSep_eq]; exact List.cons_ne_nil _ _)
    (by rw [hashSep_eq]; exact containsSub_false_of_no_head hfp)

theorem jsSplit_hash_some {fp cm : Str} (hfp : ∀ x ∈ fp, (x == ' ') = false)
    (hcm : containsSub hashSep cm = false) :
    jsSplit hashSep (fp ++ hashSep ++ cm) = [fp, cm] := by
  rw [hashSep_eq]
  rw [jsSplit_boundary hfp]
  rw [jsSplit_no_match (List.cons_ne_nil _ _) (by rw [← hashSep_eq]; exact hcm)]

theorem parseFilterLine_shape {cat sev : Str} (chanOpt comOpt : Option Str)
    (hcatsp : ∀ x ∈ cat, (x == ' ') = false)
    (hcateq : ∀ x ∈ cat, (x == '=') = false)
    (hsevsp : ∀ x ∈ sev, (x == ' ') = false)
    (hseveq : ∀ x ∈ sev, (x == '=') = false)
    (hchan : ∀ ch, chanOpt = some ch →
      ch ≠ [] ∧ (∀ x ∈ ch, (x == ' ') = false) ∧ (∀ x ∈ ch, (x == '=') = false))
    (hcom : ∀ cm, comOpt = some cm → cm ≠ [] ∧ containsSub hashSep cm = false) :
    parseFilterLine (cat ++ '=' :: sev ++ chanPartOf chanOpt ++ comPartOf comOpt)
      = some { category := cat, parentCategory := (lookupCat cat).getD cat,
               severity := sev, channel := chanResOf chanOpt, comment := comOpt } := by
  cases chanOpt with
  | none =>
    cases comOpt with
    | none =>
      simp only [chanPartOf, comPartOf, chanResOf, List.append_nil, List.nil_append]
      have h0 := jsSplit_hash_none (fp_no_space_short hcatsp hsevsp)
      have h1 := jsSplit_eq_short hcateq hseveq
      simp only [parseFilterLine, h0, h1, List.headD_cons]
      simp
    | some cm =>
      obtain ⟨hcm1, hcm2⟩ := hcom cm rfl
      simp only [chanPartOf, comPartOf, chanResOf]
      rw [show cat ++ '=' :: sev ++ ([] : Str) ++ (hashSep ++ cm)
          = cat ++ '=' :: sev ++ hashSep ++ cm from by simp]
      have h0 := jsSplit_hash_some (fp_no_space_short hcatsp hsevsp) hcm2
      have h1 := jsSplit_eq_short hcateq hseveq
      simp only [parseFilterLine, h0, h1, List.headD_cons]
      simp [hcm1]
  | some ch =>
    obtain ⟨hch1, hchsp, hcheq⟩ := hchan ch rfl
    cases comOpt with
    | none =>
      simp only [chanPartOf, comPartOf, chanResOf, List.append_nil, List.nil_append]
      have h0 := jsSplit_hash_none (fp_no_space_long hcatsp hsevsp hchsp)
      have h1 := jsSplit_eq_long hcateq hseveq hcheq
      simp only [parseFilterLine, h0, h1, List.headD_cons]
      simp [hch1]
    | some cm =>
      obtain ⟨hcm1, hcm2⟩ := hcom cm rfl
      simp only [chanPartOf, comPartOf, chanResOf]
      rw [show cat ++ '=' :: sev ++ '=' :: ch ++ (hashSep ++ cm)
          = cat ++ '=' :: sev ++ '=' :: ch ++ hashSep ++ cm from by simp]
      have h0 := jsSplit_hash_some (fp_no_space_long hcatsp hsevsp hchsp) hcm2
      have h1 := jsSplit_eq_long hcateq hseveq hcheq
      simp only [parseFilterLine, h0, h1, List.headD_cons]
      simp [hch1, hcm1]

theorem bool_not_true {b : Bool} (h : (!b) = true) : b = false := by
  cases b
  · rfl
  · exact absurd h (by decide)

theorem filterSupported_parts {f : MCFFilter} (h : filterSupported f = true) :
    bareToken f.category = true
    ∧ (f.severity = lowTok ∨ f.severity = mediumTok ∨ f.severity = highTok)
    ∧ (f.channel = bothTok ∨ f.channel = videoTok ∨ f.channel = audioTok)
    ∧ f.parentCategory = (lookupCat f.category).getD f.category
    ∧ (∀ cm, f.comment = some cm → cleanRight cm = true ∧ containsSub hashSep cm = false)
    ∧ containsSub arrowSep (filterLineOf f) = false := by
  unfold filterSupported at h
  simp only [Bool.and_eq_true] at h
  obtain ⟨⟨⟨⟨⟨h1, h2⟩, h3⟩, h4⟩, h5⟩, h6⟩ := h
  refine ⟨h1, ?_, ?_, of_decide_eq_true h4, ?_, bool_not_true h6⟩
  · have := h2
    simp only [Bool.or_eq_true, decide_eq_true_iff] at this
    tauto
  · have := h3
    simp only [Bool.or_eq_true, decide_eq_true_iff] at this
    tauto
  · intro cm hcm
    have h5' : (cleanRight cm && !containsSub hashSep cm) = true := by
      rw [hcm] at h5
      exact h5
    rw [Bool.and_eq_true] at h5'
    exact ⟨h5'.1, bool_not_true h5'.2⟩

theorem parseFilterLine_filterLineOf {f : MCFFilter} (h : filterSupported f = true) :
    parseFilterLine (filterLineOf f) = some f := by
  obtain ⟨h1, h2, h3, h4, h5, _⟩ := filterSupported_parts h
  obtain ⟨hcne, hcws, hcsp, hceq⟩ := bareToken_facts h1
  have hsevsp : ∀ x ∈ f.severity, (x == ' ') = false := by
    rcases h2 with hs | hs | hs <;> rw [hs] <;> decide
  have hseveq : ∀ x ∈ f.severity, (x == '=') = false := by
    rcases h2 with hs | hs | hs <;> rw [hs] <;> decide
  have hB : (match f.comment with
      | some cm => if cm = [] then [] else hashSep ++ cm
      | none => ([] : Str)) = comPartOf f.comment := by
    cases hcm : f.comment with
    | none => rfl
    | some cm =>
      show (if cm = [] then [] else hashSep ++ cm) = hashSep ++ cm
      exact if_neg (cleanRight_ne_nil (h5 cm hcm).1)
  have hcomH : ∀ cm, f.comment = some cm → cm ≠ [] ∧ containsSub hashSep cm = false :=
    fun cm hcm => ⟨cleanRight_ne_nil (h5 cm hcm).1, (h5 cm hcm).2⟩
  rcases h3 with hch | hch | hch
  · have hA : (if f.channel ≠ [] ∧ f.channel ≠ bothTok then '=' :: f.channel else [])
        = chanPartOf none := by
      show _ = ([] : Str)
      rw [if_neg]
      rw [hch]
      simp
    show parseFilterLine
        (f.category ++ '=' :: f.severity
          ++ (if f.channel ≠ [] ∧ f.channel ≠ bothTok then '=' :: f.channel else [])
          ++ (match f.comment with
              | some cm => if cm = [] then [] else hashSep ++ cm
              | none => [])) = some f
    rw [hA, hB,
      parseFilterLine_shape none f.comment hcsp hceq hsevsp hseveq
        (fun ch hch' => Option.noConfusion hch') hcomH]
    cases f with
    | mk cat par sev chan com => simp_all [chanResOf]
  · have hA : (if f.channel ≠ [] ∧ f.channel ≠ bothTok then '=' :: f.channel else [])
        = chanPartOf (some f.channel) := by
      show _ = '=' :: f.channel
      rw [if_pos ⟨by rw [hch]; decide, by rw [hch]; decide⟩]
    show parseFilterLine
        (f.category ++ '=' :: f.severity
          ++ (if f.channel ≠ [] ∧ f.channel ≠ bothTok then '=' :: f.channel else [])
          ++ (match f.comment with
              | some cm => if cm = [] then [] else hashSep ++ cm
              | none => [])) = some f
    rw [hA, hB,
      parseFilterLine_shape (some f.channel) f.comment hcsp hceq hsevsp hseveq
        (fun ch hch' => by
          rw [← Option.some.inj hch', hch]
          exact ⟨by decide, by decide, by decide⟩) hcomH]
    cases f with
    | mk cat par sev chan com => simp_all [chanResOf]
  · have hA : (if f.channel ≠ [] ∧ f.channel ≠ bothTok then '=' :: f.channel else [])
        = chanPartOf (some f.channel) := by
      show _ = '=' :: f.channel
      rw [if_pos ⟨by rw [hch]; decide, by rw [hch]; decide⟩]
    show parseFilterLine
        (f.category ++ '=' :: f.severity
          ++ (if f.channel ≠ [] ∧ f.channel ≠ bothTok then '=' :: f.channel else [])
          ++ (match f.comment with
              | some cm => if cm = [] then [] else hashSep ++ cm
              | none => [])) = some f
    rw [hA, hB,
      parseFilterLine_shape (some f.channel) f.comment hcsp hceq hsevsp hseveq
        (fun ch hch' => by
          rw [← Option.some.inj hch', hch]
          exact ⟨by decide, by decide, by decide⟩) hcomH]
    cases f with
    | mk cat par sev chan com => simp_all [chanResOf]

/-! ### Line-level facts about generated text -/

theorem append_ne_nil_left {α} {l₁ l₂ : List α} (h : l₁ ≠ []) : l₁ ++ l₂ ≠ [] :=
  fun he => h (List.append_eq_nil.mp he).1

theorem ne_of_mem_not_mem {α} {a : α} {l₁ l₂ : List α}
    (h1 : a ∈ l₁) (h2 : a ∉ l₂) : l₁ ≠ l₂ :=
  fun he => h2 (he ▸ h1)

theorem noteTok_eq : noteTok = 'N' :: 'O' :: 'T' :: 'E' :: [] := rfl
theorem kwTITLE_eq : kwTITLE = 'T' :: 'I' :: 'T' :: 'L' :: 'E' :: ' ' :: [] := rfl
theorem kwYEAR_eq : kwYEAR = 'Y' :: 'E' :: 'A' :: 'R' :: ' ' :: [] := rfl
theorem kwTYPE_eq : kwTYPE = 'T' :: 'Y' :: 'P' :: 'E' :: ' ' :: [] := rfl
theorem kwSEASON_eq : kwSEASON = 'S' :: 'E' :: 'A' :: 'S' :: 'O' :: 'N' :: ' ' :: [] := rfl
theorem kwEPISODE_eq :
    kwEPISODE = 'E' :: 'P' :: 'I' :: 'S' :: 'O' :: 'D' :: 'E' :: ' ' :: [] := rfl
theorem kwIMDB_eq : kwIMDB = 'I' :: 'M' :: 'D' :: 'B' :: ' ' :: [] := rfl
theorem kwSOURCE_eq : kwSOURCE = 'S' :: 'O' :: 'U' :: 'R' :: 'C' :: 'E' :: ' ' :: [] := rfl
theorem kwRELEASE_eq :
    kwRELEASE = 'R' :: 'E' :: 'L' :: 'E' :: 'A' :: 'S' :: 'E' :: ' ' :: [] := rfl
theorem kwSTART_eq : kwSTART = 'S' :: 'T' :: 'A' :: 'R' :: 'T' :: ' ' :: [] := rfl
theorem kwEND_eq : kwEND = 'E' :: 'N' :: 'D' :: ' ' :: [] := rfl

theorem jsTrim_keyValue {kw v : Str} (hk : kw ≠ [])
    (hkws : ∀ c, kw.head? = some c → isWsChar c = false)
    (hv : cleanRight v = true) : jsTrim (kw ++ v) = kw ++ v := by
  apply jsTrim_eq_self
  · intro c hc
    rw [head?_append_left hk] at hc
    exact hkws c hc
  · intro c hc
    rw [reverse_head_append (cleanRight_ne_nil hv)] at hc
    exact cleanRight_rev_head hv c hc

theorem cleanRight_formatTimestamp (m : Nat) : cleanRight (formatTimestamp m) = true := by
  cases hrev : (formatTimestamp m).reverse with
  | nil =>
    have : formatTimestamp m = [] := by
      rw [← List.reverse_reverse (formatTimestamp m), hrev]
      rfl
    exact absurd this (formatTimestamp_ne_nil m)
  | cons d ds =>
    unfold cleanRight
    rw [hrev]
    have hd : d ∈ formatTimestamp m := by
      rw [← List.mem_reverse, hrev]
      exact List.mem_cons_self d ds
    show (!isWsChar d && noCR (formatTimestamp m)) = true
    rw [formatTimestamp_not_ws d hd, formatTimestamp_noCR m]
    rfl

theorem colon_mem_formatTimestamp (m : Nat) : ':' ∈ formatTimestamp m := by
  unfold formatTimestamp
  refine List.mem_append.mpr (Or.inr ?_)
  exact List.mem_cons_self ':' _

theorem tsLine_trim (s e : Nat) :
    jsTrim (formatTimestamp s ++ arrowSep ++ formatTimestamp e)
      = formatTimestamp s ++ arrowSep ++ formatTimestamp e := by
  apply jsTrim_eq_self
  · intro c hc
    rw [head?_append_left (append_ne_nil_left (formatTimestamp_ne_nil s)),
      head?_append_left (formatTimestamp_ne_nil s)] at hc
    exact formatTimestamp_not_ws c (mem_of_head? hc)
  · intro c hc
    rw [reverse_head_append (formatTimestamp_ne_nil e)] at hc
    exact formatTimestamp_not_ws c (List.mem_reverse.mp (mem_of_head? hc))

theorem tsLine_splits (s e : Nat) :
    jsSplit arrowSep (formatTimestamp s ++ arrowSep ++ formatTimestamp e)
      = [formatTimestamp s, formatTimestamp e] := by
  rw [arrowSep_eq, jsSplit_boundary (fun x hx => formatTimestamp_no_space x hx)]
  rw [jsSplit_no_match (List.cons_ne_nil _ _)
    (containsSub_false_of_no_head (fun x hx => formatTimestamp_no_space x hx))]

theorem tsLine_hasArrow (s e : Nat) :
    containsSub arrowSep (formatTimestamp s ++ arrowSep ++ formatTimestamp e) = true := by
  rw [arrowSep_eq]
  exact containsSub_boundary ' ' ('-' :: '-' :: '>' :: ' ' :: []) (formatTimestamp s)
    (formatTimestamp e)

theorem tsLine_ne_note (s e : Nat) :
    formatTimestamp s ++ arrowSep ++ formatTimestamp e ≠ noteTok := by
  apply ne_of_mem_not_mem (a := ':')
  · exact List.mem_append.mpr (Or.inl (List.mem_append.mpr
      (Or.inl (colon_mem_formatTimestamp s))))
  · decide

/-! ### Evaluation of the parse-loop step on each kind of generated line -/

theorem filterLineOf_def (f : MCFFilter) :
    filterLineOf f = f.category ++ '=' :: f.severity
      ++ (if f.channel ≠ [] ∧ f.channel ≠ bothTok then '=' :: f.channel else [])
      ++ (match f.comment with
          | some cm => if cm = [] then [] else hashSep ++ cm
          | none => []) := rfl

theorem filterLineOf_trim {f : MCFFilter} (hsup : filterSupported f = true) :
    jsTrim (filterLineOf f) = filterLineOf f := by
  obtain ⟨h1, h2, h3, _, h5, _⟩ := filterSupported_parts hsup
  obtain ⟨hcne, hcws, _, _⟩ := bareToken_facts h1
  apply jsTrim_eq_self
  · intro c hc
    rw [filterLineOf_def] at hc
    rw [head?_append_left (append_ne_nil_left (append_ne_nil_left hcne)),
      head?_append_left (append_ne_nil_left hcne),
      head?_append_left hcne] at hc
    exact hcws c (mem_of_head? hc)
  · intro c hc
    rw [filterLineOf_def] at hc
    cases hcm : f.comment with
    | some cm =>
      have hcmne := cleanRight_ne_nil (h5 cm hcm).1
      rw [hcm] at hc
      rw [show (match some cm with
          | some cm => if cm = [] then [] else hashSep ++ cm
          | none => ([] : Str)) = if cm = [] then [] else hashSep ++ cm from rfl] at hc
      rw [if_neg hcmne] at hc
      rw [reverse_head_append (append_ne_nil_left (show hashSep ≠ [] from by decide))] at hc
      rw [reverse_head_append hcmne] at hc
      exact cleanRight_rev_head (h5 cm hcm).1 c hc
    | none =>
      rw [hcm] at hc
      rw [show (match (none : Option Str) with
          | some cm => if cm = [] then [] else hashSep ++ cm
          | none => ([] : Str)) = [] from rfl, List.append_nil] at hc
      rcases h3 with hch | hch | hch
      · rw [if_neg (by rw [hch]; simp), List.append_nil] at hc
        rw [reverse_head_append (List.cons_ne_nil '=' f.severity)] at hc
        have hmem := List.mem_reverse.mp (mem_of_head? hc)
        rcases List.mem_cons.mp hmem with rfl | hmem2
        · decide
        · rcases h2 with hs | hs | hs
          · rw [hs] at hmem2
            exact (show ∀ x ∈ lowTok, isWsChar x = false from by decide) c hmem2
          · rw [hs] at hmem2
            exact (show ∀ x ∈ mediumTok, isWsChar x = false from by decide) c hmem2
          · rw [hs] at hmem2
            exact (show ∀ x ∈ highTok, isWsChar x = false from by decide) c hmem2
      · rw [if_pos ⟨by rw [hch]; decide, by rw [hch]; decide⟩] at hc
        rw [reverse_head_append (List.cons_ne_nil '=' f.channel)] at hc
        have hmem := List.mem_reverse.mp (mem_of_head? hc)
        rcases List.mem_cons.mp hmem with rfl | hmem2
        · decide
        · rw [hch] at hmem2
          exact (show ∀ x ∈ videoTok, isWsChar x = false from by decide) c hmem2
      · rw [if_pos ⟨by rw [hch]; decide, by rw [hch]; decide⟩] at hc
        rw [reverse_head_append (List.cons_ne_nil '=' f.channel)] at hc
        have hmem := List.mem_reverse.mp (mem_of_head? hc)
        rcases List.mem_cons.mp hmem with rfl | hmem2
        · decide
        · rw [hch] at hmem2
          exact (show ∀ x ∈ audioTok, isWsChar x = false from by decide) c hmem2

theorem eq_mem_filterLineOf (f : MCFFilter) : '=' ∈ filterLineOf f := by
  rw [filterLineOf_def]
  exact List.mem_append.mpr (Or.inl (List.mem_append.mpr (Or.inl
    (List.mem_append.mpr (Or.inr (List.mem_cons_self '=' f.severity))))))

theorem filterLineOf_ne_nil {f : MCFFilter} (hsup : filterSupported f = true) :
    filterLineOf f ≠ [] := by
  obtain ⟨h1, _, _, _, _, _⟩ := filterSupported_parts hsup
  rw [filterLineOf_def]
  exact append_ne_nil_left (append_ne_nil_left (append_ne_nil_left (bareToken_facts h1).1))

theorem step_noteTok (st : PState) : step st noteTok = { st with inNote := true } := by
  simp only [step]
  rw [show jsTrim noteTok = noteTok from by decide]
  rw [if_pos rfl]

theorem step_blank_inNote {st : PState} (h : st.inNote = true) :
    step st [] = { st with inNote := false } := by
  simp only [step]
  rw [show jsTrim [] = ([] : Str) from rfl]
  rw [if_neg (show ¬([] : Str) = noteTok from by decide)]
  rw [if_pos h]
  rw [if_pos rfl]

theorem step_blank_noop {st : PState} (hn : st.inNote = false) (hc : st.cue = none) :
    step st [] = st := by
  simp only [step]
  rw [show jsTrim [] = ([] : Str) from rfl]
  rw [if_neg (show ¬([] : Str) = noteTok from by decide)]
  rw [if_neg (show ¬st.inNote = true from by rw [hn]; exact Bool.noConfusion)]
  rw [if_neg (show ¬containsSub arrowSep ([] : Str) = true from by decide)]
  rw [hc]

theorem step_blank_flush {st : PState} {cue : MCFCue} (hn : st.inNote = false)
    (hc : st.cue = some cue) (hf : cue.filters ≠ []) :
    step st [] = { st with
      cue := none
      doc := { st.doc with segments := st.doc.segments ++ [cue] } } := by
  simp only [step]
  rw [show jsTrim [] = ([] : Str) from rfl]
  rw [if_neg (show ¬([] : Str) = noteTok from by decide)]
  rw [if_neg (show ¬st.inNote = true from by rw [hn]; exact Bool.noConfusion)]
  rw [if_neg (show ¬containsSub arrowSep ([] : Str) = true from by decide)]
  rw [hc]
  show { st with
      cue := none
      doc := if cue.filters = [] then st.doc
        else { st.doc with segments := st.doc.segments ++ [cue] } } = _
  rw [if_neg hf]

theorem step_filterLine {st : PState} {cue : MCFCue} {f : MCFFilter}
    (hn : st.inNote = false) (hc : st.cue = some cue) (hsup : filterSupported f = true) :
    step st (filterLineOf f)
      = { st with cue := some { cue with filters := cue.filters ++ [f] } } := by
  have h6 := (filterSupported_parts hsup).2.2.2.2.2
  simp only [step]
  rw [filterLineOf_trim hsup]
  rw [if_neg (ne_of_mem_not_mem (eq_mem_filterLineOf f) (by decide))]
  rw [if_neg (show ¬st.inNote = true from by rw [hn]; exact Bool.noConfusion)]
  rw [if_neg (show ¬containsSub arrowSep (filterLineOf f) = true from by
    rw [h6]; exact Bool.noConfusion)]
  rw [hc]
  show (if filterLineOf f = [] then _
      else match parseFilterLine (filterLineOf f) with
        | some f => { st with cue := some { cue with filters := cue.filters ++ [f] } }
        | none => st) = _
  rw [if_neg (filterLineOf_ne_nil hsup)]
  rw [parseFilterLine_filterLineOf hsup]

theorem step_tsLine {st : PState} (hn : st.inNote = false) {s e : Nat}
    (hs : s < 360000000) (he : e < 360000000) :
    step st (formatTimestamp s ++ arrowSep ++ formatTimestamp e)
      = { st with cue := some ⟨s, e, []⟩ } := by
  simp only [step]
  rw [tsLine_trim s e]
  rw [if_neg (tsLine_ne_note s e)]
  rw [if_neg (show ¬st.inNote = true from by rw [hn]; exact Bool.noConfusion)]
  rw [if_pos (tsLine_hasArrow s e)]
  rw [tsLine_splits s e]
  rw [show ([formatTimestamp s, formatTimestamp e].headD []) = formatTimestamp s from rfl]
  rw [show (([formatTimestamp s, formatTimestamp e].drop 1).headD [])
      = formatTimestamp e from rfl]
  rw [parseTimestamp_formatTimestamp hs, parseTimestamp_formatTimestamp he]

theorem step_TITLE {st : PState} (hNote : st.inNote = true) {t : Str}
    (ht : cleanRight t = true) :
    step st (kwTITLE ++ t)
      = { st with doc := { st.doc with metadata :=
          { st.doc.metadata with title := some t } } } := by
  simp only [step]
  rw [jsTrim_keyValue (by decide)
    (fun c hc => by
      rw [show kwTITLE.head? = some 'T' from rfl] at hc
      rw [← Option.some.inj hc]
      decide) ht]
  rw [if_neg (by rw [kwTITLE_eq, noteTok_eq]; simp)]
  rw [if_pos hNote]
  rw [if_neg (append_ne_nil_left (show kwTITLE ≠ [] from by decide))]
  rw [if_pos (strStartsWith_append kwTITLE t)]
  rw [show (kwTITLE ++ t).drop 6 = t from by
    rw [show (6 : Nat) = kwTITLE.length from rfl, List.drop_left]]

theorem step_YEAR {st : PState} (hNote : st.inNote = true) {n : Int} (hpos : 0 < n) :
    step st (kwYEAR ++ intToDigits n)
      = { st with doc := { st.doc with metadata :=
          { st.doc.metadata with year := some (some n) } } } := by
  simp only [step]
  rw [jsTrim_keyValue (by decide)
    (fun c hc => by
      rw [show kwYEAR.head? = some 'Y' from rfl] at hc
      rw [← Option.some.inj hc]
      decide) (cleanRight_intToDigits_pos hpos)]
  rw [if_neg (by rw [kwYEAR_eq, noteTok_eq]; simp)]
  rw [if_pos hNote]
  rw [if_neg (append_ne_nil_left (show kwYEAR ≠ [] from by decide))]
  rw [if_neg (by rw [kwYEAR_eq, kwTITLE_eq]; simp [strStartsWith])]
  rw [if_pos (strStartsWith_append kwYEAR _)]
  rw [show (kwYEAR ++ intToDigits n).drop 5 = intToDigits n from by
    rw [show (5 : Nat) = kwYEAR.length from rfl, List.drop_left]]
  rw [jsParseInt_intToDigits_pos hpos]

theorem step_TYPE {st : PState} (hNote : st.inNote = true) {t : Str}
    (ht : cleanRight t = true) :
    step st (kwTYPE ++ t)
      = { st with doc := { st.doc with metadata :=
          { st.doc.metadata with type := some t } } } := by
  simp only [step]
  rw [jsTrim_keyValue (by decide)
    (fun c hc => by
      rw [show kwTYPE.head? = some 'T' from rfl] at hc
      rw [← Option.some.inj hc]
      decide) ht]
  rw [if_neg (by rw [kwTYPE_eq, noteTok_eq]; simp)]
  rw [if_pos hNote]
  rw [if_neg (append_ne_nil_left (show kwTYPE ≠ [] from by decide))]
  rw [if_neg (by rw [kwTYPE_eq, kwTITLE_eq]; simp [strStartsWith])]
  rw [if_neg (by rw [kwTYPE_eq, kwYEAR_eq]; simp [strStartsWith])]
  rw [if_pos (strStartsWith_append kwTYPE t)]
  rw [show (kwTYPE ++ t).drop 5 = t from by
    rw [show (5 : Nat) = kwTYPE.length from rfl, List.drop_left]]

theorem step_SEASON {st : PState} (hNote : st.inNote = true) {n : Int} (hpos : 0 < n) :
    step st (kwSEASON ++ intToDigits n)
      = { st with doc := { st.doc with metadata :=
          { st.doc.metadata with season := some (some n) } } } := by
  simp only [step]
  rw [jsTrim_keyValue (by decide)
    (fun c hc => by
      rw [show kwSEASON.head? = some 'S' from rfl] at hc
      rw [← Option.some.inj hc]
      decide) (cleanRight_intToDigits_pos hpos)]
  rw [if_neg (by rw [kwSEASON_eq, noteTok_eq]; simp)]
  rw [if_pos hNote]
  rw [if_neg (append_ne_nil_left (show kwSEASON ≠ [] from by decide))]
  rw [if_neg (by rw [kwSEASON_eq, kwTITLE_eq]; simp [strStartsWith])]
  rw [if_neg (by rw [kwSEASON_eq, kwYEAR_eq]; simp [strStartsWith])]
  rw [if_neg (by rw [kwSEASON_eq, kwTYPE_eq]; simp [strStartsWith])]
  rw [if_pos (strStartsWith_append kwSEASON _)]
  rw [show (kwSEASON ++ intToDigits n).drop 7 = intToDigits n from by
    rw [show (7 : Nat) = kwSEASON.length from rfl, List.drop_left]]
  rw [jsParseInt_intToDigits_pos hpos]

theorem step_EPISODE {st : PState} (hNote : st.inNote = true) {n : Int} (hpos : 0 < n) :
    step st (kwEPISODE ++ intToDigits n)
      = { st with doc := { st.doc with metadata :=
          { st.doc.metadata with episode := some (some n) } } } := by
  simp only [step]
  rw [jsTrim_keyValue (by decide)
    (fun c hc => by
      rw [show kwEPISODE.head? = some 'E' from rfl] at hc
      rw [← Option.some.inj hc]
      decide) (cleanRight_intToDigits_pos hpos)]
  rw [if_neg (by rw [kwEPISODE_eq, noteTok_eq]; simp)]
  rw [if_pos hNote]
  rw [if_neg (append_ne_nil_left (show kwEPISODE ≠ [] from by decide))]
  rw [if_neg (by rw [kwEPISODE_eq, kwTITLE_eq]; simp [strStartsWith])]
  rw [if_neg (by rw [kwEPISODE_eq, kwYEAR_eq]; simp [strStartsWith])]
  rw [if_neg (by rw [kwEPISODE_eq, kwTYPE_eq]; simp [strStartsWith])]
  rw [if_neg (by rw [kwEPISODE_eq, kwSEASON_eq]; simp [strStartsWith])]
  rw [if_pos (strStartsWith_append kwEPISODE _)]
  rw [show (kwEPISODE ++ intToDigits n).drop 8 = intToDigits n from by
    rw [show (8 : Nat) = kwEPISODE.length from rfl, List.drop_left]]
  rw [jsParseInt_intToDigits_pos hpos]

theorem step_IMDB {st : PState} (hNote : st.inNote = true) {t : Str}
    (ht : cleanRight t = true) :
    step st (kwIMDB ++ t)
      = { st with doc := { st.doc with metadata :=
          { st.doc.metadata with imdb := some t } } } := by
  simp only [step]
  rw [jsTrim_keyValue (by decide)
    (fun c hc => by
      rw [show kwIMDB.head? = some 'I' from rfl] at hc
      rw [← Option.some.inj hc]
      decide) ht]
  rw [if_neg (by rw [kwIMDB_eq, noteTok_eq]; simp)]
  rw [if_pos hNote]
  rw [if_neg (append_ne_nil_left (show kwIMDB ≠ [] from by decide))]
  rw [if_neg (by rw [kwIMDB_eq, kwTITLE_eq]; simp [strStartsWith])]
  rw [if_neg (by rw [kwIMDB_eq, kwYEAR_eq]; simp [strStartsWith])]
  rw [if_neg (by rw [kwIMDB_eq, kwTYPE_eq]; simp [strStartsWith])]
  rw [if_neg (by rw [kwIMDB_eq, kwSEASON_eq]; simp [strStartsWith])]
  rw [if_neg (by rw [kwIMDB_eq, kwEPISODE_eq]; simp [strStartsWith])]
  rw [if_pos (strStartsWith_append kwIMDB t)]
  rw [show (kwIMDB ++ t).drop 5 = t from by
    rw [show (5 : Nat) = kwIMDB.length from rfl, List.drop_left]]

theorem step_RELEASE {st : PState} (hNote : st.inNote = true) {t : Str}
    (ht : cleanRight t = true) :
    step st (kwRELEASE ++ t)
      = { st with doc := { st.doc with metadata :=
          { st.doc.metadata with release := some t } } } := by
  simp only [step]
  rw [jsTrim_keyValue (by decide)
    (fun c hc => by
      rw [show kwRELEASE.head? = some 'R' from rfl] at hc
      rw [← Option.some.inj hc]
      decide) ht]
  rw [if_neg (by rw [kwRELEASE_eq, noteTok_eq]; simp)]
  rw [if_pos hNote]
  rw [if_neg (append_ne_nil_left (show kwRELEASE ≠ [] from by decide))]
  rw [if_neg (by rw [kwRELEASE_eq, kwTITLE_eq]; simp [strStartsWith])]
  rw [if_neg (by rw [kwRELEASE_eq, kwYEAR_eq]; simp [strStartsWith])]
  rw [if_neg (by rw [kwRELEASE_eq, kwTYPE_eq]; simp [strStartsWith])]
  rw [if_neg (by rw [kwRELEASE_eq, kwSEASON_eq]; simp [strStartsWith])]
  rw [if_neg (by rw [kwRELEASE_eq, kwEPISODE_eq]; simp [strStartsWith])]
  rw [if_neg (by rw [kwRELEASE_eq, kwIMDB_eq]; simp [strStartsWith])]
  rw [if_neg (by rw [kwRELEASE_eq, kwSOURCE_eq]; simp [strStartsWith])]
  rw [if_pos (strStartsWith_append kwRELEASE t)]
  rw [show (kwRELEASE ++ t).drop 8 = t from by
    rw [show (8 : Nat) = kwRELEASE.length from rfl, List.drop_left]]

theorem step_START {st : PState} (hNote : st.inNote = true) {v : Nat}
    (hv : v < 360000000) :
    step st (kwSTART ++ formatTimestamp v)
      = { st with doc := { st.doc with markers :=
          { st.doc.markers with start := some v } } } := by
  simp only [step]
  rw [jsTrim_keyValue (by decide)
    (fun c hc => by
      rw [show kwSTART.head? = some 'S' from rfl] at hc
      rw [← Option.some.inj hc]
      decide) (cleanRight_formatTimestamp v)]
  rw [if_neg (by rw [kwSTART_eq, noteTok_eq]; simp)]
  rw [if_pos hNote]
  rw [if_neg (append_ne_nil_left (show kwSTART ≠ [] from by decide))]
  rw [if_neg (by rw [kwSTART_eq, kwTITLE_eq]; simp [strStartsWith])]
  rw [if_neg (by rw [kwSTART_eq, kwYEAR_eq]; simp [strStartsWith])]
  rw [if_neg (by rw [kwSTART_eq, kwTYPE_eq]; simp [strStartsWith])]
  rw [if_neg (by rw [kwSTART_eq, kwSEASON_eq]; simp [strStartsWith])]
  rw [if_neg (by rw [kwSTART_eq, kwEPISODE_eq]; simp [strStartsWith])]
  rw [if_neg (by rw [kwSTART_eq, kwIMDB_eq]; simp [strStartsWith])]
  rw [if_neg (by rw [kwSTART_eq, kwSOURCE_eq]; simp [strStartsWith])]
  rw [if_neg (by rw [kwSTART_eq, kwRELEASE_eq]; simp [strStartsWith])]
  rw [if_pos (strStartsWith_append kwSTART _)]
  rw [show (kwSTART ++ formatTimestamp v).drop 6 = formatTimestamp v from by
    rw [show (6 : Nat) = kwSTART.length from rfl, List.drop_left]]
  rw [parseTimestamp_formatTimestamp hv]

theorem step_END {st : PState} (hNote : st.inNote = true) {v : Nat}
    (hv : v < 360000000) :
    step st (kwEND ++ formatTimestamp v)
      = { st with doc := { st.doc with markers :=
          { st.doc.markers with endPos := some v } } } := by
  simp only [step]
  rw [jsTrim_keyValue (by decide)
    (fun c hc => by
      rw [show kwEND.head? = some 'E' from rfl] at hc
      rw [← Option.some.inj hc]
      decide) (cleanRight_formatTimestamp v)]
  rw [if_neg (by rw [kwEND_eq, noteTok_eq]; simp)]
  rw [if_pos hNote]
  rw [if_neg (append_ne_nil_left (show kwEND ≠ [] from by decide))]
  rw [if_neg (by rw [kwEND_eq, kwTITLE_eq]; simp [strStartsWith])]
  rw [if_neg (by rw [kwEND_eq, kwYEAR_eq]; simp [strStartsWith])]
  rw [if_neg (by rw [kwEND_eq, kwTYPE_eq]; simp [strStartsWith])]
  rw [if_neg (by rw [kwEND_eq, kwSEASON_eq]; simp [strStartsWith])]
  rw [if_neg (by rw [kwEND_eq, kwEPISODE_eq]; simp [strStartsWith])]
  rw [if_neg (by rw [kwEND_eq, kwIMDB_eq]; simp [strStartsWith])]
  rw [if_neg (by rw [kwEND_eq, kwSOURCE_eq]; simp [strStartsWith])]
  rw [if_neg (by rw [kwEND_eq, kwRELEASE_eq]; simp [strStartsWith])]
  rw [if_neg (by rw [kwEND_eq, kwSTART_eq]; simp [strStartsWith])]
  rw [if_pos (strStartsWith_append kwEND _)]
  rw [show (kwEND ++ formatTimestamp v).drop 4 = formatTimestamp v from by
    rw [show (4 : Nat) = kwEND.length from rfl, List.drop_left]]
  rw [parseTimestamp_formatTimestamp hv]

/-! ### Folding the parse loop over generated blocks -/

theorem foldl_title {o : Option Str} (ho : optStrSupported o = true) {st : PState}
    (h : st.inNote = true) :
    List.foldl step st (optStrLine o (fun t => kwTITLE ++ t))
      = { st with doc := { st.doc with metadata :=
          { st.doc.metadata with title := o.or st.doc.metadata.title } } } := by
  cases o with
  | none => rfl
  | some t =>
    have ht : cleanRight t = true := ho
    show List.foldl step st (if t = [] then [] else [kwTITLE ++ t]) = _
    rw [if_neg (cleanRight_ne_nil ht), List.foldl_cons, List.foldl_nil, step_TITLE h ht]; rfl

theorem foldl_year {o : Option (Option Int)} (ho : optNumSupported o = true) {st : PState}
    (h : st.inNote = true) :
    List.foldl step st (optNumLine o (fun n => kwYEAR ++ intToDigits n))
      = { st with doc := { st.doc with metadata :=
          { st.doc.metadata with year := o.or st.doc.metadata.year } } } := by
  cases o with
  | none => rfl
  | some oi =>
    cases oi with
    | none => exact absurd ho (by decide)
    | some n =>
      have hpos : 0 < n := of_decide_eq_true ho
      show List.foldl step st (if n = 0 then [] else [kwYEAR ++ intToDigits n]) = _
      rw [if_neg (by omega), List.foldl_cons, List.foldl_nil, step_YEAR h hpos]; rfl

theorem foldl_type {o : Option Str} (ho : optStrSupported o = true) {st : PState}
    (h : st.inNote = true) :
    List.foldl step st (optStrLine o (fun t => kwTYPE ++ t))
      = { st with doc := { st.doc with metadata :=
          { st.doc.metadata with type := o.or st.doc.metadata.type } } } := by
  cases o with
  | none => rfl
  | some t =>
    have ht : cleanRight t = true := ho
    show List.foldl step st (if t = [] then [] else [kwTYPE ++ t]) = _
    rw [if_neg (cleanRight_ne_nil ht), List.foldl_cons, List.foldl_nil, step_TYPE h ht]; rfl

theorem foldl_season {o : Option (Option Int)} (ho : optNumSupported o = true)
    {st : PState} (h : st.inNote = true) :
    List.foldl step st (optNumLine o (fun n => kwSEASON ++ intToDigits n))
      = { st with doc := { st.doc with metadata :=
          { st.doc.metadata with season := o.or st.doc.metadata.season } } } := by
  cases o with
  | none => rfl
  | some oi =>
    cases oi with
    | none => exact absurd ho (by decide)
    | some n =>
      have hpos : 0 < n := of_decide_eq_true ho
      show List.foldl step st (if n = 0 then [] else [kwSEASON ++ intToDigits n]) = _
      rw [if_neg (by omega), List.foldl_cons, List.foldl_nil, step_SEASON h hpos]; rfl

theorem foldl_episode {o : Option (Option Int)} (ho : optNumSupported o = true)
    {st : PState} (h : st.inNote = true) :
    List.foldl step st (optNumLine o (fun n => kwEPISODE ++ intToDigits n))
      = { st with doc := { st.doc with metadata :=
          { st.doc.metadata with episode := o.or st.doc.metadata.episode } } } := by
  cases o with
  | none => rfl
  | some oi =>
    cases oi with
    | none => exact absurd ho (by decide)
    | some n =>
      have hpos : 0 < n := of_decide_eq_true ho
      show List.foldl step st (if n = 0 then [] else [kwEPISODE ++ intToDigits n]) = _
      rw [if_neg (by omega), List.foldl_cons, List.foldl_nil, step_EPISODE h hpos]; rfl

theorem foldl_imdb {o : Option Str} (ho : optStrSupported o = true) {st : PState}
    (h : st.inNote = true) :
    List.foldl step st (optStrLine o (fun t => kwIMDB ++ t))
      = { st with doc := { st.doc with metadata :=
          { st.doc.metadata with imdb := o.or st.doc.metadata.imdb } } } := by
  cases o with
  | none => rfl
  | some t =>
    have ht : cleanRight t = true := ho
    show List.foldl step st (if t = [] then [] else [kwIMDB ++ t]) = _
    rw [if_neg (cleanRight_ne_nil ht), List.foldl_cons, List.foldl_nil, step_IMDB h ht]; rfl

theorem foldl_release {o : Option Str} (ho : optStrSupported o = true) {st : PState}
    (h : st.inNote = true) :
    List.foldl step st (optStrLine o (fun t => kwRELEASE ++ t))
      = { st with doc := { st.doc with metadata :=
          { st.doc.metadata with release := o.or st.doc.metadata.release } } } := by
  cases o with
  | none => rfl
  | some t =>
    have ht : cleanRight t = true := ho
    show List.foldl step st (if t = [] then [] else [kwRELEASE ++ t]) = _
    rw [if_neg (cleanRight_ne_nil ht), List.foldl_cons, List.foldl_nil, step_RELEASE h ht]; rfl

theorem foldl_startLine {o : Option Nat} (ho : ∀ v, o = some v → v < 360000000)
    {st : PState} (h : st.inNote = true) :
    List.foldl step st (optNatLine o (fun v => kwSTART ++ formatTimestamp v))
      = { st with doc := { st.doc with markers :=
          { st.doc.markers with start := o.or st.doc.markers.start } } } := by
  cases o with
  | none => rfl
  | some v =>
    show List.foldl step st [kwSTART ++ formatTimestamp v] = _
    rw [List.foldl_cons, List.foldl_nil, step_START h (ho v rfl)]; rfl

theorem foldl_endLine {o : Option Nat} (ho : ∀ v, o = some v → v < 360000000)
    {st : PState} (h : st.inNote = true) :
    List.foldl step st (optNatLine o (fun v => kwEND ++ formatTimestamp v))
      = { st with doc := { st.doc with markers :=
          { st.doc.markers with endPos := o.or st.doc.markers.endPos } } } := by
  cases o with
  | none => rfl
  | some v =>
    show List.foldl step st [kwEND ++ formatTimestamp v] = _
    rw [List.foldl_cons, List.foldl_nil, step_END h (ho v rfl)]; rfl

theorem foldl_metaLines {m : MCFMetadata}
    (ht : optStrSupported m.title = true) (hy : optNumSupported m.year = true)
    (hty : optStrSupported m.type = true) (hs : optNumSupported m.season = true)
    (he : optNumSupported m.episode = true) (hi : optStrSupported m.imdb = true)
    (hr : optStrSupported m.release = true)
    {st : PState} (h : st.inNote = true) :
    List.foldl step st (metaLines m)
      = { st with doc := { st.doc with metadata :=
          { title := m.title.or st.doc.metadata.title
            year := m.year.or st.doc.metadata.year
            type := m.type.or st.doc.metadata.type
            season := m.season.or st.doc.metadata.season
            episode := m.episode.or st.doc.metadata.episode
            imdb := m.imdb.or st.doc.metadata.imdb
            source := st.doc.metadata.source
            release := m.release.or st.doc.metadata.release } } } := by
  unfold metaLines
  simp only [List.foldl_append]
  simp only [foldl_title ht, foldl_year hy, foldl_type hty, foldl_season hs,
    foldl_episode he, foldl_imdb hi, foldl_release hr, h]

theorem foldl_markerLines {mk : MCFMarkers}
    (hs : ∀ v, mk.start = some v → v < 360000000)
    (he : ∀ v, mk.endPos = some v → v < 360000000)
    {st : PState} (h : st.inNote = true) :
    List.foldl step st (markerLines mk)
      = { st with doc := { st.doc with markers :=
          { start := mk.start.or st.doc.markers.start
            endPos := mk.endPos.or st.doc.markers.endPos } } } := by
  unfold markerLines
  simp only [List.foldl_append]
  simp only [foldl_startLine hs, foldl_endLine he, h]

theorem step_filterLine_state (st0 : PState) (hn : st0.inNote = false) (cue : MCFCue)
    {f : MCFFilter} (hsup : filterSupported f = true) :
    step { st0 with cue := some cue } (filterLineOf f)
      = { st0 with cue := some { cue with filters := cue.filters ++ [f] } } :=
  @step_filterLine { st0 with cue := some cue } cue f hn rfl hsup

theorem foldl_filterLines (st0 : PState) (hn : st0.inNote = false) :
    ∀ (fs : List MCFFilter), (∀ f ∈ fs, filterSupported f = true) →
    ∀ (cue : MCFCue),
    List.foldl step { st0 with cue := some cue } (fs.map filterLineOf)
      = { st0 with cue := some { cue with filters := cue.filters ++ fs } } := by
  intro fs
  induction fs with
  | nil =>
    intro _ cue
    simp
  | cons f fs ih =>
    intro hsup cue
    rw [List.map_cons, List.foldl_cons,
      step_filterLine_state st0 hn cue (hsup f (List.mem_cons_self f fs)),
      ih (fun x hx => hsup x (List.mem_cons_of_mem f hx))
        { cue with filters := cue.filters ++ [f] }]
    simp [List.append_assoc]

theorem foldl_cueBlock (st0 : PState) (hn : st0.inNote = false) (hc : st0.cue = none)
    {seg : MCFCue} (hsup : cueSupported seg = true) :
    List.foldl step st0 (cueLines seg)
      = { st0 with doc := { st0.doc with segments := st0.doc.segments ++ [seg] } } := by
  simp only [cueSupported, Bool.and_eq_true, decide_eq_true_eq, List.all_eq_true] at hsup
  obtain ⟨⟨⟨hs, he⟩, hne⟩, hall⟩ := hsup
  unfold cueLines
  rw [List.foldl_append]
  simp only [List.foldl_cons, List.foldl_nil]
  rw [step_tsLine hn hs he]
  rw [foldl_filterLines st0 hn seg.filters hall ⟨seg.startTime, seg.endTime, []⟩]
  show step { st0 with cue := some ⟨seg.startTime, seg.endTime, seg.filters⟩ } [] = _
  rw [@step_blank_flush { st0 with cue := some ⟨seg.startTime, seg.endTime, seg.filters⟩ }
    ⟨seg.startTime, seg.endTime, seg.filters⟩ hn rfl hne]
  obtain ⟨inN, c, d⟩ := st0
  have hc' : c = none := hc
  subst hc'
  rfl

theorem foldl_segBlocks :
    ∀ (segs : List MCFCue), (∀ seg ∈ segs, cueSupported seg = true) →
    ∀ (st : PState), st.inNote = false → st.cue = none →
    List.foldl step st (segs.foldr (fun seg acc => cueLines seg ++ acc) [])
      = { st with doc := { st.doc with segments := st.doc.segments ++ segs } } := by
  intro segs
  induction segs with
  | nil =>
    intro _ st hn hc
    simp
  | cons seg segs ih =>
    intro hsup st hn hc
    rw [List.foldr_cons, List.foldl_append]
    rw [foldl_cueBlock st hn hc (hsup seg (List.mem_cons_self seg segs))]
    rw [ih (fun x hx => hsup x (List.mem_cons_of_mem seg hx))
      { st with doc := { st.doc with segments := st.doc.segments ++ [seg] } } hn hc]
    simp [List.append_assoc]

theorem foldl_metaBlock {m : MCFMetadata}
    (ht : optStrSupported m.title = true) (hy : optNumSupported m.year = true)
    (hty : optStrSupported m.type = true) (hs : optNumSupported m.season = true)
    (he : optNumSupported m.episode = true) (hi : optStrSupported m.imdb = true)
    (hr : optStrSupported m.release = true)
    {st : PState} (hn : st.inNote = false) :
    List.foldl step st (noteTok :: (metaLines m ++ [[]]))
      = { st with doc := { st.doc with metadata :=
          { title := m.title.or st.doc.metadata.title
            year := m.year.or st.doc.metadata.year
            type := m.type.or st.doc.metadata.type
            season := m.season.or st.doc.metadata.season
            episode := m.episode.or st.doc.metadata.episode
            imdb := m.imdb.or st.doc.metadata.imdb
            source := st.doc.metadata.source
            release := m.release.or st.doc.metadata.release } } } := by
  obtain ⟨inN, c, d⟩ := st
  have hn' : inN = false := hn
  subst hn'
  rw [List.foldl_cons, step_noteTok, List.foldl_append]
  rw [foldl_metaLines ht hy hty hs he hi hr
    (show ({ (⟨false, c, d⟩ : PState) with inNote := true }).inNote = true from rfl)]
  simp only [List.foldl_cons, List.foldl_nil, step_blank_inNote]

theorem foldl_markerBlock {mk : MCFMarkers}
    (hs : ∀ v, mk.start = some v → v < 360000000)
    (he : ∀ v, mk.endPos = some v → v < 360000000)
    {st : PState} (hn : st.inNote = false) :
    List.foldl step st (noteTok :: (markerLines mk ++ [[]]))
      = { st with doc := { st.doc with markers :=
          { start := mk.start.or st.doc.markers.start
            endPos := mk.endPos.or st.doc.markers.endPos } } } := by
  obtain ⟨inN, c, d⟩ := st
  have hn' : inN = false := hn
  subst hn'
  rw [List.foldl_cons, step_noteTok, List.foldl_append]
  rw [foldl_markerLines hs he
    (show ({ (⟨false, c, d⟩ : PState) with inNote := true }).inNote = true from rfl)]
  simp only [List.foldl_cons, List.foldl_nil, step_blank_inNote]

/-! ### Every generated line is free of line terminators -/

theorem noCR_append (a b : Str) : noCR (a ++ b) = (noCR a && noCR b) := by
  simp [noCR, List.all_append]

theorem not_ws_not_nl {c : Char} (h : isWsChar c = false) :
    (c == '\n') = false ∧ (c == '\r') = false := by
  unfold isWsChar at h
  simp only [Bool.or_eq_false_iff] at h
  exact ⟨h.1.1.1.2, h.1.1.2⟩

theorem noCR_of_bareToken {t : Str} (h : bareToken t = true) : noCR t = true := by
  obtain ⟨_, hws, _, _⟩ := bareToken_facts h
  unfold noCR
  rw [List.all_eq_true]
  intro c hc
  obtain ⟨hn, hr⟩ := not_ws_not_nl (hws c hc)
  rw [Bool.and_eq_true]
  exact ⟨by rw [hn]; rfl, by rw [hr]; rfl⟩

theorem noCR_filterLineOf {f : MCFFilter} (hsup : filterSupported f = true) :
    noCR (filterLineOf f) = true := by
  obtain ⟨h1, h2, h3, _, h5, _⟩ := filterSupported_parts hsup
  rw [filterLineOf_def]
  rw [noCR_append, noCR_append, noCR_append,
    Bool.and_eq_true, Bool.and_eq_true, Bool.and_eq_true]
  refine ⟨⟨⟨noCR_of_bareToken h1, ?_⟩, ?_⟩, ?_⟩
  · show noCR ('=' :: f.severity) = true
    rcases h2 with h | h | h <;> rw [h] <;> decide
  · rcases h3 with h | h | h <;> rw [h] <;> decide
  · cases hcm : f.comment with
    | none => decide
    | some cm =>
      obtain ⟨hcr, _⟩ := h5 cm hcm
      show noCR (if cm = [] then [] else hashSep ++ cm) = true
      by_cases hnil : cm = []
      · rw [if_pos hnil]; decide
      · rw [if_neg hnil, noCR_append, Bool.and_eq_true]
        exact ⟨by decide, cleanRight_noCR hcr⟩

theorem noCR_optStrLine {o : Option Str} (ho : optStrSupported o = true) {kw : Str}
    (hkw : noCR kw = true) {l : Str} (hl : l ∈ optStrLine o (fun t => kw ++ t)) :
    noCR l = true := by
  cases o with
  | none => exact absurd hl (by simp [optStrLine])
  | some t =>
    have ht : cleanRight t = true := ho
    simp only [optStrLine] at hl
    rw [if_neg (cleanRight_ne_nil ht)] at hl
    simp only [List.mem_singleton] at hl
    subst hl
    rw [noCR_append, hkw, cleanRight_noCR ht]
    rfl

theorem noCR_optNumLine {o : Option (Option Int)} (ho : optNumSupported o = true)
    {kw : Str} (hkw : noCR kw = true) {l : Str}
    (hl : l ∈ optNumLine o (fun n => kw ++ intToDigits n)) : noCR l = true := by
  cases o with
  | none => exact absurd hl (by simp [optNumLine])
  | some oi =>
    cases oi with
    | none => exact absurd ho (by decide)
    | some n =>
      have hpos : 0 < n := of_decide_eq_true ho
      simp only [optNumLine] at hl
      rw [if_neg (by omega)] at hl
      simp only [List.mem_singleton] at hl
      subst hl
      rw [noCR_append, hkw, cleanRight_noCR (cleanRight_intToDigits_pos hpos)]
      rfl

theorem noCR_optNatLine {o : Option Nat} {kw : Str} (hkw : noCR kw = true) {l : Str}
    (hl : l ∈ optNatLine o (fun v => kw ++ formatTimestamp v)) : noCR l = true := by
  cases o with
  | none => exact absurd hl (by simp [optNatLine])
  | some v =>
    simp only [optNatLine, List.mem_singleton] at hl
    subst hl
    rw [noCR_append, hkw, formatTimestamp_noCR]
    rfl

theorem noCR_metaLines {m : MCFMetadata}
    (ht : optStrSupported m.title = true) (hy : optNumSupported m.year = true)
    (hty : optStrSupported m.type = true) (hs : optNumSupported m.season = true)
    (he : optNumSupported m.episode = true) (hi : optStrSupported m.imdb = true)
    (hr : optStrSupported m.release = true)
    {l : Str} (hl : l ∈ metaLines m) : noCR l = true := by
  unfold metaLines at hl
  simp only [List.mem_append] at hl
  rcases hl with ((((((h | h) | h) | h) | h) | h) | h)
  · exact noCR_optStrLine ht (by decide) h
  · exact noCR_optNumLine hy (by decide) h
  · exact noCR_optStrLine hty (by decide) h
  · exact noCR_optNumLine hs (by decide) h
  · exact noCR_optNumLine he (by decide) h
  · exact noCR_optStrLine hi (by decide) h
  · exact noCR_optStrLine hr (by decide) h

theorem noCR_markerLines {mk : MCFMarkers} {l : Str} (hl : l ∈ markerLines mk) :
    noCR l = true := by
  unfold markerLines at hl
  rcases List.mem_append.mp hl with h | h
  · exact noCR_optNatLine (by decide) h
  · exact noCR_optNatLine (by decide) h

theorem noCR_cueLines {seg : MCFCue} (hsup : cueSupported seg = true) {l : Str}
    (hl : l ∈ cueLines seg) : noCR l = true := by
  simp only [cueSupported, Bool.and_eq_true, List.all_eq_true] at hsup
  obtain ⟨⟨⟨_, _⟩, _⟩, hall⟩ := hsup
  unfold cueLines at hl
  rcases List.mem_append.mp hl with h | h
  · rcases List.mem_cons.mp h with rfl | h
    · rw [noCR_append, noCR_append, formatTimestamp_noCR, formatTimestamp_noCR]
      decide
    · obtain ⟨f, hf, rfl⟩ := List.mem_map.mp h
      exact noCR_filterLineOf (hall f hf)
  · simp only [List.mem_singleton] at h
    subst h
    decide

theorem noCR_segFold :
    ∀ (segs : List MCFCue), (∀ seg ∈ segs, cueSupported seg = true) →
    ∀ l ∈ segs.foldr (fun seg acc => cueLines seg ++ acc) [], noCR l = true := by
  intro segs
  induction segs with
  | nil => intro _ l hl; exact absurd hl (by simp)
  | cons seg segs ih =>
    intro hsup l hl
    rw [List.foldr_cons] at hl
    rcases List.mem_append.mp hl with h | h
    · exact noCR_cueLines (hsup seg (List.mem_cons_self seg segs)) h
    · exact ih (fun x hx => hsup x (List.mem_cons_of_mem seg hx)) l h

theorem generateMCFLines_noCR {d : MCFDoc} (h : docSupported d = true) :
    ∀ l ∈ generateMCFLines d, noCR l = true := by
  simp only [docSupported, Bool.and_eq_true, decide_eq_true_eq] at h
  obtain ⟨⟨⟨⟨⟨⟨⟨⟨⟨⟨⟨hv, ht⟩, hy⟩, hty⟩, hs⟩, he⟩, hi⟩, hsrc⟩, hr⟩, hms⟩, hme⟩, hsegs⟩ := h
  have hsegs' : ∀ seg ∈ d.segments, cueSupported seg = true := List.all_eq_true.mp hsegs
  intro l hl
  unfold generateMCFLines at hl
  rcases List.mem_append.mp hl with hl1 | hlS
  · rcases List.mem_append.mp hl1 with hl2 | hlN
    · rcases List.mem_append.mp hl2 with hl3 | hlI
      · simp only [List.mem_cons, List.not_mem_nil, or_false] at hl3
        rcases hl3 with rfl | rfl
        · decide
        · decide
      · cases hmp : metaPresent d.metadata with
        | false =>
          rw [hmp] at hlI
          simp at hlI
        | true =>
          rw [hmp] at hlI
          rw [if_pos rfl] at hlI
          rcases List.mem_cons.mp hlI with rfl | hlM
          · decide
          · rcases List.mem_append.mp hlM with hlM | hlE
            · exact noCR_metaLines ht hy hty hs he hi hr hlM
            · simp only [List.mem_singleton] at hlE
              subst hlE
              decide
    · rcases List.mem_cons.mp hlN with rfl | hlM
      · decide
      · rcases List.mem_append.mp hlM with hlM | hlE
        · exact noCR_markerLines hlM
        · simp only [List.mem_singleton] at hlE
          subst hlE
          decide
  · exact noCR_segFold d.segments hsegs' l hlS

/-! ### Assembling the round trip -/

theorem parseMCF_eq (content : Str) :
    parseMCF content
      = if strStartsWith ((splitLines content).headD []) headerTok
        then Except.ok (finishParse (List.foldl step
          (initPState ((splitLines content).headD [])) ((splitLines content).drop 2)))
        else Except.error errMsg := rfl

theorem genLines_form (d : MCFDoc) :
    generateMCFLines d
      = headerLine :: [] ::
        ((if metaPresent d.metadata then noteTok :: (metaLines d.metadata ++ [[]]) else [])
          ++ ((noteTok :: (markerLines d.markers ++ [[]]))
            ++ d.segments.foldr (fun seg acc => cueLines seg ++ acc) [])) := by
  simp [generateMCFLines, List.append_assoc]

theorem drop_two_cons (a b : Str) (l : List Str) : (a :: b :: l).drop 2 = l := rfl

theorem foldl_segBlocks_cond {segs : List MCFCue}
    (hsup : ∀ seg ∈ segs, cueSupported seg = true)
    {st : PState} (hn : st.inNote = false) (hc : st.cue = none) :
    List.foldl step st (segs.foldr (fun seg acc => cueLines seg ++ acc) [])
      = { st with doc := { st.doc with segments := st.doc.segments ++ segs } } :=
  foldl_segBlocks segs hsup st hn hc

theorem eq_none_of_isSome_false {α} {o : Option α} (h : o.isSome = false) : o = none := by
  cases o with
  | none => rfl
  | some a => exact absurd h (by simp)

theorem initPState_headerLine :
    initPState headerLine
      = ⟨false, none, ⟨defaultVersion, {}, {}, []⟩⟩ := by
  unfold initPState
  rw [show versionOf headerLine = defaultVersion from by decide]

/-- C4: for a document all of whose fields take supported values — version
`1.1.0`, clean string metadata, positive numeric metadata, no `source`
field, in-range markers, and segments of supported filters — running the
parser on the generated MCF text yields exactly the original document.
(Corrected from the frozen claim: the generator hard-codes version `1.1.0`
and never emits a `SOURCE` line, so a document with a different version or
a `source` value does not round-trip; see the counterexample.) -/
theorem claim_C4 (d : MCFDoc) (h : docSupported d = true) :
    parseMCF (generateMCF d) = Except.ok d := by
  have h0 := h
  simp only [docSupported, Bool.and_eq_true, decide_eq_true_eq] at h
  obtain ⟨⟨⟨⟨⟨⟨⟨⟨⟨⟨⟨hv, ht⟩, hy⟩, hty⟩, hs⟩, he⟩, hi⟩, hsrc⟩, hr⟩, hms⟩, hme⟩, hsegs⟩ := h
  have hms' : ∀ v, d.markers.start = some v → v < 360000000 := by
    intro v hv2
    rw [hv2] at hms
    exact of_decide_eq_true hms
  have hme' : ∀ v, d.markers.endPos = some v → v < 360000000 := by
    intro v hv2
    rw [hv2] at hme
    exact of_decide_eq_true hme
  have hsegs' : ∀ seg ∈ d.segments, cueSupported seg = true := List.all_eq_true.mp hsegs
  have hnoCR : ∀ l ∈ generateMCFLines d, noCR l = true := generateMCFLines_noCR h0
  rw [parseMCF_eq]
  unfold generateMCF
  rw [splitLines_joinNL (generateMCFLines d) hnoCR]
  rw [genLines_form d]
  rw [List.cons_append, List.cons_append]
  simp only [List.headD_cons]
  rw [if_pos (show strStartsWith headerLine headerTok = true from by decide)]
  rw [drop_two_cons]
  rw [initPState_headerLine]
  rw [List.foldl_append, List.foldl_append, List.foldl_append]
  cases hmp : metaPresent d.metadata with
  | true =>
    rw [if_pos rfl]
    simp only [foldl_metaBlock ht hy hty hs he hi hr]
    simp only [foldl_markerBlock hms' hme']
    simp only [foldl_segBlocks_cond hsegs']
    simp only [List.foldl_cons, List.foldl_nil]
    simp only [step_blank_noop]
    simp only [finishParse, Option.or_none, List.nil_append]
    obtain ⟨ver, meta, mks, segs⟩ := d
    obtain ⟨mt, my, mty, msn, mep, mi, msrc, mr⟩ := meta
    obtain ⟨mkS, mkE⟩ := mks
    have hv' : ver = defaultVersion := hv
    subst hv'
    have hsrc' : msrc = none := hsrc
    subst hsrc'
    rfl
  | false =>
    rw [if_neg (show ¬false = true from by decide)]
    simp only [List.foldl_nil]
    simp only [foldl_markerBlock hms' hme']
    simp only [foldl_segBlocks_cond hsegs']
    simp only [List.foldl_cons, List.foldl_nil]
    simp only [step_blank_noop]
    simp only [finishParse, Option.or_none, List.nil_append]
    simp only [metaPresent, Bool.or_eq_false_iff] at hmp
    obtain ⟨⟨⟨⟨⟨⟨⟨p1, p2⟩, p3⟩, p4⟩, p5⟩, p6⟩, p7⟩, p8⟩ := hmp
    obtain ⟨ver, meta, mks, segs⟩ := d
    obtain ⟨mt, my, mty, msn, mep, mi, msrc, mr⟩ := meta
    obtain ⟨mkS, mkE⟩ := mks
    have hv' : ver = defaultVersion := hv
    subst hv'
    have e1 : mt = none := eq_none_of_isSome_false p1
    have e2 : my = none := eq_none_of_isSome_false p2
    have e3 : mty = none := eq_none_of_isSome_false p3
    have e4 : msn = none := eq_none_of_isSome_false p4
    have e5 : mep = none := eq_none_of_isSome_false p5
    have e6 : mi = none := eq_none_of_isSome_false p6
    have e7 : msrc = none := eq_none_of_isSome_false p7
    have e8 : mr = none := eq_none_of_isSome_false p8
    subst e1
    subst e2
    subst e3
    subst e4
    subst e5
    subst e6
    subst e7
    subst e8
    rfl

/-- C4 counterexample: the frozen claim promises the round trip preserves
the document version and the `metadata.source` field, but `generateMCF`
hard-codes the header `WEBVTT MovieContentFilter 1.1.0` and never emits a
`SOURCE` line, so a document with version `1.0.0` and a `source` value
comes back with version `1.1.0` and no `source`. -/
theorem claim_C4_counterexample :
    c4bad.version = ("1.0.0").toList
    ∧ c4bad.metadata.source = some (("communityDb").toList)
    ∧ parseMCF (generateMCF c4bad) = Except.ok { version := defaultVersion }
    ∧ parseMCF (generateMCF c4bad) ≠ Except.ok c4bad := by
  refine ⟨rfl, rfl, by decide, by decide⟩

theorem claim_C4_witness :
    docSupported c4good = true ∧ parseMCF (generateMCF c4good) = Except.ok c4good :=
  ⟨by decide, claim_C4 c4good (by decide)⟩

/-- C5: `parseMCF` throws (`Except.error`) exactly when the first line of
the input does not start with the sentinel `WEBVTT MovieContentFilter`:
when the first line does start with it the parser always returns a
document (malformed lines inside are skipped, never raised on), and in
particular a first line of `NOT A VALID HEADER` yields the
`Invalid MCF format: missing header` error. -/
theorem claim_C5 (s : Str) :
    (strStartsWith ((splitLines s).headD []) headerTok = true →
      ∃ doc, parseMCF s = Except.ok doc)
    ∧ (strStartsWith ((splitLines s).headD []) headerTok = false →
      parseMCF s = Except.error errMsg)
    ∧ parseMCF (("NOT A VALID HEADER").toList) = Except.error errMsg := by
  refine ⟨?_, ?_, by decide⟩
  · intro hc
    rw [parseMCF_eq, if_pos hc]
    exact ⟨_, rfl⟩
  · intro hc
    rw [parseMCF_eq, if_neg (show ¬_ = true from by rw [hc]; exact Bool.noConfusion)]

theorem claim_C5_witness :
    (strStartsWith ((splitLines headerLine).headD []) headerTok = true
      ∧ ∃ doc, parseMCF headerLine = Except.ok doc)
    ∧ (strStartsWith ((splitLines (("NOT A VALID HEADER").toList)).headD []) headerTok
          = false
      ∧ parseMCF (("NOT A VALID HEADER").toList) = Except.error errMsg) :=
  ⟨⟨by decide, (claim_C5 headerLine).1 (by decide)⟩,
   ⟨by decide, (claim_C5 (("NOT A VALID HEADER").toList)).2.1 (by decide)⟩⟩

/-- C10: a cue is terminated only by a blank line.  In the input
`c10input` the first timestamp line `00:00:01.000 --> 00:00:02.000` is
followed by the valid filter line `violence=high` (which `parseFilterLine`
accepts) and then directly — with no intervening blank line — by a second
timestamp line: the first cue is discarded, and the parsed document's
segments hold only the second cue. -/
theorem claim_C10 :
    c10lines.get? 2 = some (("00:00:01.000 --> 00:00:02.000").toList)
    ∧ parseFilterLine (("violence=high").toList)
        = some ⟨violenceTok, violenceTok, highTok, bothTok, none⟩
    ∧ parseMCF c10input
        = Except.ok ⟨defaultVersion, {}, {},
            [⟨3000, 4000, [⟨sexTok, sexTok, lowTok, bothTok, none⟩]⟩]⟩ := by
  refine ⟨by decide, by decide, by decide⟩

end CleanStream
